import Mathlib

/-!
Shallow embedding of the event-processing engine of the payments challenge
repository: the client ledger (src/src/model/client.rs), the transaction
record with its dispute-status state machine (src/src/model/transaction.rs),
and the processor that applies events to both maps
(src/src/system/processor.rs, driven by src/src/system/processing.rs).

Modelling choices:
* `Amount` (rust_decimal::Decimal, an exact decimal) is embedded as `Rat`:
  both are exact (non-floating) arithmetic, and no claim depends on the
  96-bit mantissa limit of `Decimal`.
* `ClientID` (u16) and `TransactionID` (u32) are embedded as `Nat`; no claim
  depends on their bit width.
* The two `HashMap`s of the processor are embedded as association lists with
  `HashMap` semantics: `alookup` finds the entry for a key, `ainsert`
  replaces the entry in place when the key is present and appends otherwise.
* Rust methods that mutate `self` become functions returning the new state;
  `process_event`, which in Rust mutates the processor and returns
  `Result<(), String>`, becomes `Processor → Event → Processor × Option PErr`
  so that partial mutation before a failure is visible, exactly as in the
  source.
* The ad hoc `String` errors of the source are embedded as the inductive
  `PErr`, one constructor per distinct error construction site, carrying the
  same data that the source formats into the message.
-/

namespace Challenge

abbrev ClientID := Nat
abbrev TransactionID := Nat
abbrev Amount := Rat

/-- Errors of the engine, one constructor per distinct error message built in
the source:
* `cannotDepositLocked`: "Cannot deposit when account is locked." (client.rs)
* `cannotWithdrawLocked`: "Cannot withdraw when account is locked." (client.rs)
* `insufficientFunds`: "Insufficient funds." (client.rs)
* `transactionExists id`: "Transaction already exists with id {id}." (processor.rs)
* `transactionNotFound id`: "Transaction {id} not found." (processor.rs)
* `clientNotFound id`: "Client {id} does not exist." (processor.rs)
* `clientMismatch ec tc`: "Client id {ec} does not match transaction client id {tc}." (processor.rs)
* `alreadyChargedBack`: "Transaction has already been charged back." (transaction.rs)
* `notDisputed`: "Transaction is not disputed." (transaction.rs)
* `alreadyDisputed`: "Transaction is already disputed." (transaction.rs) -/
inductive PErr where
  | cannotDepositLocked
  | cannotWithdrawLocked
  | insufficientFunds
  | transactionExists (id : TransactionID)
  | transactionNotFound (id : TransactionID)
  | clientNotFound (id : ClientID)
  | clientMismatch (eventClientId txClientId : ClientID)
  | alreadyChargedBack
  | notDisputed
  | alreadyDisputed
deriving DecidableEq, Repr

/-- Struct `Client` from src/src/model/client.rs. -/
structure Client where
  held : Amount
  total : Amount
  locked : Bool
deriving DecidableEq, Repr

/-- Function `Client::new`. -/
def Client.new : Client := { held := 0, total := 0, locked := false }

/-- Function `Client::available`. -/
def Client.available (c : Client) : Amount := c.total - c.held

/-- Function `Client::deposit`. -/
def Client.deposit (c : Client) (amount : Amount) : Except PErr Client :=
  if c.locked then .error .cannotDepositLocked
  else .ok { c with total := c.total + amount }

/-- Function `Client::withdraw`. -/
def Client.withdraw (c : Client) (amount : Amount) : Except PErr Client :=
  if c.locked then .error .cannotWithdrawLocked
  else if c.available < amount then .error .insufficientFunds
  else .ok { c with total := c.total - amount }

/-- Function `Client::hold`. -/
def Client.hold (c : Client) (amount : Amount) : Client :=
  { c with held := c.held + amount }

/-- Function `Client::chargeback`. -/
def Client.chargeback (c : Client) (amount : Amount) : Client :=
  { held := c.held - amount, total := c.total - amount, locked := true }

/-- Enum `TransactionKind` from src/src/model/transaction.rs. -/
inductive TransactionKind where
  | Deposit
  | Withdrawal
deriving DecidableEq, Repr

/-- Enum `DisputeStatus` from src/src/model/transaction.rs
(`None` is the undisputed initial state, `Pending` is under dispute). -/
inductive DisputeStatus where
  | None
  | Pending
  | ChargedBack
deriving DecidableEq, Repr

/-- Struct `Transaction` from src/src/model/transaction.rs. -/
structure Transaction where
  client_id : ClientID
  amount : Amount
  kind : TransactionKind
  dispute_status : DisputeStatus
deriving DecidableEq, Repr

/-- Function `Transaction::new`. -/
def Transaction.new (client_id : ClientID) (amount : Amount)
    (kind : TransactionKind) : Transaction :=
  { client_id := client_id, amount := amount, kind := kind,
    dispute_status := .None }

/-- Function `Transaction::validate_dispute_status_transition`, with the same match
arms in the same order. -/
def Transaction.validate_dispute_status_transition (t : Transaction)
    (new_dispute_status : DisputeStatus) : Except PErr Unit :=
  match t.dispute_status, new_dispute_status with
  | .None, .Pending | .Pending, .None | .Pending, .ChargedBack => .ok ()
  | .ChargedBack, _ => .error .alreadyChargedBack
  | .None, _ => .error .notDisputed
  | .Pending, .Pending => .error .alreadyDisputed

/-- Enum `DisputeStepKind` consumed by `Processor::process_event`. -/
inductive DisputeStepKind where
  | Dispute
  | Resolve
  | Chargeback
deriving DecidableEq, Repr

/-- Enum `Event` consumed by `Processor::process_event`: either a money transfer
(deposit/withdrawal) or a dispute step acting on an existing transaction. -/
inductive Event where
  | Transaction (kind : TransactionKind) (transaction_id : TransactionID)
      (client_id : ClientID) (amount : Amount)
  | DisputeStep (kind : DisputeStepKind) (transaction_id : TransactionID)
      (client_id : ClientID)
deriving DecidableEq, Repr

/-- The client id an event refers to. -/
def Event.client_id : Event → ClientID
  | .Transaction _ _ c _ => c
  | .DisputeStep _ _ c => c

/-- Association-list lookup, the embedding of `HashMap::get`. -/
def alookup {α : Type} : List (Nat × α) → Nat → Option α
  | [], _ => none
  | (k, v) :: rest, key => if k = key then some v else alookup rest key

/-- Association-list insert with `HashMap::insert` semantics: replace the
entry in place when the key is present, append otherwise. -/
def ainsert {α : Type} : List (Nat × α) → Nat → α → List (Nat × α)
  | [], key, v => [(key, v)]
  | (k, w) :: rest, key, v =>
      if k = key then (k, v) :: rest else (k, w) :: ainsert rest key v

/-- Struct `Processor` from src/src/system/processor.rs: the two maps. -/
structure Processor where
  clients_by_id : List (ClientID × Client)
  transactions_by_id : List (TransactionID × Transaction)
deriving DecidableEq, Repr

/-- Function `Processor::new`. -/
def Processor.new : Processor := { clients_by_id := [], transactions_by_id := [] }

/-- Function `Processor::check_transaction_does_not_exist`. -/
def Processor.check_transaction_does_not_exist (p : Processor)
    (transaction_id : TransactionID) : Option PErr :=
  if (alookup p.transactions_by_id transaction_id).isSome then
    some (.transactionExists transaction_id)
  else none

/-- Function `Processor::find_or_create_client` (`entry(..).or_insert_with(Client::new)`):
returns the processor (with the client inserted when it was absent) and the
client value the entry holds. -/
def Processor.find_or_create_client (p : Processor) (client_id : ClientID) :
    Processor × Client :=
  match alookup p.clients_by_id client_id with
  | some c => (p, c)
  | none =>
      ({ p with clients_by_id := ainsert p.clients_by_id client_id Client.new },
       Client.new)

/-- Function `Processor::deposit`. -/
def Processor.deposit (p : Processor) (transaction_id : TransactionID)
    (client_id : ClientID) (amount : Amount) : Processor × Option PErr :=
  match p.check_transaction_does_not_exist transaction_id with
  | some e => (p, some e)
  | none =>
    let pc := p.find_or_create_client client_id
    match pc.2.deposit amount with
    | .error e => (pc.1, some e)
    | .ok client =>
      let p2 := { pc.1 with
        clients_by_id := ainsert pc.1.clients_by_id client_id client }
      ({ p2 with transactions_by_id := (ainsert p2.transactions_by_id
          transaction_id (Transaction.new client_id amount .Deposit)) }, none)

/-- Function `Processor::withdraw`. -/
def Processor.withdraw (p : Processor) (transaction_id : TransactionID)
    (client_id : ClientID) (amount : Amount) : Processor × Option PErr :=
  match p.check_transaction_does_not_exist transaction_id with
  | some e => (p, some e)
  | none =>
    let pc := p.find_or_create_client client_id
    match pc.2.withdraw amount with
    | .error e => (pc.1, some e)
    | .ok client =>
      let p2 := { pc.1 with
        clients_by_id := ainsert pc.1.clients_by_id client_id client }
      ({ p2 with transactions_by_id := (ainsert p2.transactions_by_id
          transaction_id (Transaction.new client_id amount .Withdrawal)) }, none)

/-- Function `Processor::get_transaction_and_client`. -/
def Processor.get_transaction_and_client (p : Processor)
    (transaction_id : TransactionID) : Except PErr (Transaction × Client) :=
  match alookup p.transactions_by_id transaction_id with
  | none => .error (.transactionNotFound transaction_id)
  | some transaction =>
    match alookup p.clients_by_id transaction.client_id with
    | none => .error (.clientNotFound transaction.client_id)
    | some client => .ok (transaction, client)

/-- Function `Processor::check_client_owns_transaction`. -/
def Processor.check_client_owns_transaction (client_id : ClientID)
    (transaction : Transaction) : Option PErr :=
  if client_id ≠ transaction.client_id then
    some (.clientMismatch client_id transaction.client_id)
  else none

/-- Function `Processor::dispute`. -/
def Processor.dispute (p : Processor) (transaction_id : TransactionID)
    (client_id : ClientID) : Processor × Option PErr :=
  match p.get_transaction_and_client transaction_id with
  | .error e => (p, some e)
  | .ok (transaction, client) =>
    match Processor.check_client_owns_transaction client_id transaction with
    | some e => (p, some e)
    | none =>
      match transaction.validate_dispute_status_transition .Pending with
      | .error e => (p, some e)
      | .ok _ =>
        let client := match transaction.kind with
          | .Deposit => client.hold transaction.amount
          | .Withdrawal => client.hold (-transaction.amount)
        let p2 := { p with
          clients_by_id := ainsert p.clients_by_id transaction.client_id client }
        ({ p2 with transactions_by_id := (ainsert p2.transactions_by_id
            transaction_id { transaction with dispute_status := .Pending }) },
         none)

/-- Function `Processor::resolve`. -/
def Processor.resolve (p : Processor) (transaction_id : TransactionID)
    (client_id : ClientID) : Processor × Option PErr :=
  match p.get_transaction_and_client transaction_id with
  | .error e => (p, some e)
  | .ok (transaction, client) =>
    match Processor.check_client_owns_transaction client_id transaction with
    | some e => (p, some e)
    | none =>
      match transaction.validate_dispute_status_transition .None with
      | .error e => (p, some e)
      | .ok _ =>
        let client := match transaction.kind with
          | .Deposit => client.hold (-transaction.amount)
          | .Withdrawal => client.hold transaction.amount
        let p2 := { p with
          clients_by_id := ainsert p.clients_by_id transaction.client_id client }
        ({ p2 with transactions_by_id := (ainsert p2.transactions_by_id
            transaction_id { transaction with dispute_status := .None }) },
         none)

/-- Function `Processor::chargeback`. -/
def Processor.chargeback (p : Processor) (transaction_id : TransactionID)
    (client_id : ClientID) : Processor × Option PErr :=
  match p.get_transaction_and_client transaction_id with
  | .error e => (p, some e)
  | .ok (transaction, client) =>
    match Processor.check_client_owns_transaction client_id transaction with
    | some e => (p, some e)
    | none =>
      match transaction.validate_dispute_status_transition .ChargedBack with
      | .error e => (p, some e)
      | .ok _ =>
        let client := match transaction.kind with
          | .Deposit => client.chargeback transaction.amount
          | .Withdrawal => client.chargeback (-transaction.amount)
        let p2 := { p with
          clients_by_id := ainsert p.clients_by_id transaction.client_id client }
        ({ p2 with transactions_by_id := (ainsert p2.transactions_by_id
            transaction_id { transaction with dispute_status := .ChargedBack }) },
         none)

/-- Function `Processor::process_event`. -/
def Processor.process_event (p : Processor) (event : Event) :
    Processor × Option PErr :=
  match event with
  | .Transaction kind transaction_id client_id amount =>
    match kind with
    | .Deposit => p.deposit transaction_id client_id amount
    | .Withdrawal => p.withdraw transaction_id client_id amount
  | .DisputeStep kind transaction_id client_id =>
    match kind with
    | .Dispute => p.dispute transaction_id client_id
    | .Resolve => p.resolve transaction_id client_id
    | .Chargeback => p.chargeback transaction_id client_id

/-- Function `process_events` (src/src/system/processing.rs) restricted to the state it
threads: apply the events in order, keeping the state a rejected event leaves
behind. -/
def processEvents (p : Processor) : List Event → Processor
  | [] => p
  | e :: rest => processEvents (p.process_event e).1 rest

/-- Run a whole event list from the fresh processor, as `process_events` does. -/
def run (events : List Event) : Processor :=
  processEvents Processor.new events

/-- The per-event results of a run starting at `p`, in order: each event paired
with the error it was rejected with (`none` when it was accepted). This is the
error stream `process_events` writes to its error logger. -/
def traceFrom (p : Processor) : List Event → List (Event × Option PErr)
  | [] => []
  | e :: rest =>
      (e, (p.process_event e).2) :: traceFrom (p.process_event e).1 rest

/-- The error/acceptance trace of a whole run. -/
def trace (events : List Event) : List (Event × Option PErr) :=
  traceFrom Processor.new events

/-- The total of a client in the final map; `0` for a client that was never
created (such a client does not appear in the report at all). -/
def Processor.totalOf (p : Processor) (c : ClientID) : Amount :=
  match alookup p.clients_by_id c with
  | some client => client.total
  | none => 0

/-- The held amount of a client in the final map; `0` for an absent client. -/
def Processor.heldOf (p : Processor) (c : ClientID) : Amount :=
  match alookup p.clients_by_id c with
  | some client => client.held
  | none => 0

/-- The locked flag of a client in the final map; `false` for an absent client. -/
def Processor.lockedOf (p : Processor) (c : ClientID) : Bool :=
  match alookup p.clients_by_id c with
  | some client => client.locked
  | none => false

end Challenge

namespace Challenge

/-! ### Association-list lemmas -/

theorem alookup_ainsert_self {α : Type} (l : List (Nat × α)) (k : Nat) (v : α) :
    alookup (ainsert l k v) k = some v := by
  induction l with
  | nil => simp [ainsert, alookup]
  | cons q rest ih =>
    obtain ⟨k0, w⟩ := q
    by_cases hk : k0 = k
    · subst hk; simp [ainsert, alookup]
    · simp [ainsert, alookup, hk, ih]

theorem alookup_ainsert_ne {α : Type} (l : List (Nat × α)) {k k' : Nat}
    (h : k ≠ k') (v : α) : alookup (ainsert l k v) k' = alookup l k' := by
  induction l with
  | nil => simp [ainsert, alookup, h]
  | cons q rest ih =>
    obtain ⟨k0, w⟩ := q
    by_cases hk : k0 = k
    · subst hk; simp [ainsert, alookup, h]
    · simp only [ainsert, if_neg hk]
      by_cases hk' : k0 = k'
      · simp [alookup, hk']
      · simp [alookup, hk', ih]

theorem ainsert_self_eq {α : Type} {l : List (Nat × α)} {k : Nat} {v : α}
    (h : alookup l k = some v) : ainsert l k v = l := by
  induction l with
  | nil => simp [alookup] at h
  | cons q rest ih =>
    obtain ⟨k0, w⟩ := q
    by_cases hk : k0 = k
    · subst hk
      have hwv : w = v := by simpa [alookup] using h
      subst hwv
      simp [ainsert]
    · simp only [alookup, if_neg hk] at h
      simp [ainsert, hk, ih h]

theorem mem_ainsert {α : Type} {l : List (Nat × α)} {k : Nat} {v : α}
    {q : Nat × α} (h : q ∈ ainsert l k v) : q = (k, v) ∨ q ∈ l := by
  induction l with
  | nil => simpa [ainsert] using h
  | cons q0 rest ih =>
    obtain ⟨k0, w⟩ := q0
    by_cases hk : k0 = k
    · subst hk
      simp only [ainsert, if_pos] at h
      rcases List.mem_cons.mp h with h1 | h1
      · exact Or.inl h1
      · exact Or.inr (List.mem_cons_of_mem _ h1)
    · simp only [ainsert, if_neg hk] at h
      rcases List.mem_cons.mp h with h1 | h1
      · exact Or.inr (h1 ▸ List.mem_cons_self _ _)
      · rcases ih h1 with h2 | h2
        · exact Or.inl h2
        · exact Or.inr (List.mem_cons_of_mem _ h2)

/-- Sum of `f` over the entries of an association list. -/
def sumBy {α : Type} (l : List (Nat × α)) (f : Nat → α → Rat) : Rat :=
  match l with
  | [] => 0
  | q :: rest => f q.1 q.2 + sumBy rest f

theorem sumBy_ainsert_none {α : Type} {l : List (Nat × α)} {k : Nat}
    (h : alookup l k = none) (v : α) (f : Nat → α → Rat) :
    sumBy (ainsert l k v) f = sumBy l f + f k v := by
  induction l with
  | nil => simp [ainsert, sumBy]
  | cons q rest ih =>
    obtain ⟨k0, w⟩ := q
    by_cases hk : k0 = k
    · subst hk; simp [alookup] at h
    · simp only [alookup, if_neg hk] at h
      simp only [ainsert, if_neg hk, sumBy, ih h]
      ring

theorem sumBy_ainsert_some {α : Type} {l : List (Nat × α)} {k : Nat} {w : α}
    (h : alookup l k = some w) (v : α) (f : Nat → α → Rat) :
    sumBy (ainsert l k v) f = sumBy l f - f k w + f k v := by
  induction l with
  | nil => simp [alookup] at h
  | cons q rest ih =>
    obtain ⟨k0, w0⟩ := q
    by_cases hk : k0 = k
    · subst hk
      have hww : w0 = w := by simpa [alookup] using h
      subst hww
      simp only [ainsert, if_pos, sumBy]
      ring
    · simp only [alookup, if_neg hk] at h
      simp only [ainsert, if_neg hk, sumBy, ih h]
      ring

theorem sumBy_nonneg {α : Type} {l : List (Nat × α)} {f : Nat → α → Rat}
    (h : ∀ q ∈ l, 0 ≤ f q.1 q.2) : 0 ≤ sumBy l f := by
  induction l with
  | nil => simp [sumBy]
  | cons q rest ih =>
    simp only [sumBy]
    have h1 := h q (List.mem_cons_self _ _)
    have h2 := ih fun q' hq' => h q' (List.mem_cons_of_mem _ hq')
    exact add_nonneg h1 h2

end Challenge

namespace Challenge

/-! ### Characterization lemmas for the client operations -/

theorem Client.deposit_err_locked {c : Client} (h : c.locked = true) (a : Amount) :
    c.deposit a = .error .cannotDepositLocked := by
  simp [Client.deposit, h]

theorem Client.deposit_ok_unlocked {c : Client} (h : c.locked = false) (a : Amount) :
    c.deposit a = .ok { c with total := c.total + a } := by
  simp [Client.deposit, h]

theorem Client.withdraw_err_locked {c : Client} (h : c.locked = true) (a : Amount) :
    c.withdraw a = .error .cannotWithdrawLocked := by
  simp [Client.withdraw, h]

theorem Client.withdraw_err_insufficient {c : Client} {a : Amount}
    (h : c.locked = false) (h2 : c.available < a) :
    c.withdraw a = .error .insufficientFunds := by
  simp [Client.withdraw, h, h2]

theorem Client.withdraw_ok_sufficient {c : Client} {a : Amount}
    (h : c.locked = false) (h2 : ¬ c.available < a) :
    c.withdraw a = .ok { c with total := c.total - a } := by
  simp [Client.withdraw, h, h2]

/-! ### Characterization lemmas for the processor helpers -/

theorem check_of_some {p : Processor} {tid : TransactionID}
    (h : (alookup p.transactions_by_id tid).isSome) :
    p.check_transaction_does_not_exist tid = some (.transactionExists tid) := by
  simp [Processor.check_transaction_does_not_exist, h]

theorem check_of_none {p : Processor} {tid : TransactionID}
    (h : alookup p.transactions_by_id tid = none) :
    p.check_transaction_does_not_exist tid = none := by
  simp [Processor.check_transaction_does_not_exist, h]

theorem find_or_create_of_some {p : Processor} {cid : ClientID} {cl : Client}
    (h : alookup p.clients_by_id cid = some cl) :
    p.find_or_create_client cid = (p, cl) := by
  simp [Processor.find_or_create_client, h]

theorem find_or_create_of_none {p : Processor} {cid : ClientID}
    (h : alookup p.clients_by_id cid = none) :
    p.find_or_create_client cid =
      ({ p with clients_by_id := ainsert p.clients_by_id cid Client.new },
       Client.new) := by
  simp [Processor.find_or_create_client, h]

theorem get_tc_of_tx_none {p : Processor} {tid : TransactionID}
    (h : alookup p.transactions_by_id tid = none) :
    p.get_transaction_and_client tid = .error (.transactionNotFound tid) := by
  simp [Processor.get_transaction_and_client, h]

theorem get_tc_of_client_none {p : Processor} {tid : TransactionID}
    {t : Transaction} (h : alookup p.transactions_by_id tid = some t)
    (h2 : alookup p.clients_by_id t.client_id = none) :
    p.get_transaction_and_client tid = .error (.clientNotFound t.client_id) := by
  simp [Processor.get_transaction_and_client, h, h2]

theorem get_tc_of_some {p : Processor} {tid : TransactionID} {t : Transaction}
    {cl : Client} (h : alookup p.transactions_by_id tid = some t)
    (h2 : alookup p.clients_by_id t.client_id = some cl) :
    p.get_transaction_and_client tid = .ok (t, cl) := by
  simp [Processor.get_transaction_and_client, h, h2]

theorem check_owns_of_eq {cid : ClientID} {t : Transaction}
    (h : cid = t.client_id) :
    Processor.check_client_owns_transaction cid t = none := by
  simp [Processor.check_client_owns_transaction, h]

theorem check_owns_of_ne {cid : ClientID} {t : Transaction}
    (h : cid ≠ t.client_id) :
    Processor.check_client_owns_transaction cid t =
      some (.clientMismatch cid t.client_id) := by
  simp [Processor.check_client_owns_transaction, h]

/-! ### Validation lemmas -/

theorem validate_none_pending {t : Transaction} (h : t.dispute_status = .None) :
    t.validate_dispute_status_transition .Pending = .ok () := by
  simp [Transaction.validate_dispute_status_transition, h]

theorem validate_pending_none {t : Transaction}
    (h : t.dispute_status = .Pending) :
    t.validate_dispute_status_transition .None = .ok () := by
  simp [Transaction.validate_dispute_status_transition, h]

theorem validate_pending_chargedback {t : Transaction}
    (h : t.dispute_status = .Pending) :
    t.validate_dispute_status_transition .ChargedBack = .ok () := by
  simp [Transaction.validate_dispute_status_transition, h]

/-- The signed magnitude the processor applies for a transaction in dispute
steps: the amount itself for a deposit, its negation for a withdrawal. -/
def Transaction.signedAmount (t : Transaction) : Amount :=
  match t.kind with
  | .Deposit => t.amount
  | .Withdrawal => -t.amount

end Challenge

namespace Challenge

/-! ### Characterization of the processor operations, one lemma per outcome -/

theorem ainsert_ainsert_same {α : Type} (l : List (Nat × α)) (k : Nat)
    (v w : α) : ainsert (ainsert l k v) k w = ainsert l k w := by
  induction l with
  | nil => simp [ainsert]
  | cons q rest ih =>
    obtain ⟨k0, w0⟩ := q
    by_cases hk : k0 = k
    · subst hk; simp [ainsert]
    · simp [ainsert, hk, ih]

theorem process_event_deposit (p : Processor) (tid : TransactionID)
    (cid : ClientID) (a : Amount) :
    p.process_event (.Transaction .Deposit tid cid a) = p.deposit tid cid a := rfl

theorem process_event_withdrawal (p : Processor) (tid : TransactionID)
    (cid : ClientID) (a : Amount) :
    p.process_event (.Transaction .Withdrawal tid cid a) = p.withdraw tid cid a := rfl

theorem deposit_of_dup {p : Processor} {tid : TransactionID}
    (h : (alookup p.transactions_by_id tid).isSome) (cid : ClientID) (a : Amount) :
    p.deposit tid cid a = (p, some (.transactionExists tid)) := by
  simp [Processor.deposit, check_of_some h]

theorem withdraw_of_dup {p : Processor} {tid : TransactionID}
    (h : (alookup p.transactions_by_id tid).isSome) (cid : ClientID) (a : Amount) :
    p.withdraw tid cid a = (p, some (.transactionExists tid)) := by
  simp [Processor.withdraw, check_of_some h]

theorem deposit_of_locked {p p1 : Processor} {tid : TransactionID}
    {cid : ClientID} {cl : Client} (h1 : alookup p.transactions_by_id tid = none)
    (hfc : p.find_or_create_client cid = (p1, cl)) (h3 : cl.locked = true)
    (a : Amount) : p.deposit tid cid a = (p1, some .cannotDepositLocked) := by
  simp [Processor.deposit, check_of_none h1, hfc, Client.deposit_err_locked h3]

theorem deposit_of_unlocked {p p1 : Processor} {tid : TransactionID}
    {cid : ClientID} {cl : Client} (h1 : alookup p.transactions_by_id tid = none)
    (hfc : p.find_or_create_client cid = (p1, cl)) (h3 : cl.locked = false)
    (a : Amount) :
    p.deposit tid cid a =
      ({ clients_by_id := ainsert p1.clients_by_id cid { cl with total := cl.total + a },
         transactions_by_id :=
           ainsert p1.transactions_by_id tid (Transaction.new cid a .Deposit) },
       none) := by
  simp [Processor.deposit, check_of_none h1, hfc, Client.deposit_ok_unlocked h3]

theorem withdraw_of_locked {p p1 : Processor} {tid : TransactionID}
    {cid : ClientID} {cl : Client} (h1 : alookup p.transactions_by_id tid = none)
    (hfc : p.find_or_create_client cid = (p1, cl)) (h3 : cl.locked = true)
    (a : Amount) : p.withdraw tid cid a = (p1, some .cannotWithdrawLocked) := by
  simp [Processor.withdraw, check_of_none h1, hfc, Client.withdraw_err_locked h3]

theorem withdraw_of_insufficient {p p1 : Processor} {tid : TransactionID}
    {cid : ClientID} {cl : Client} {a : Amount}
    (h1 : alookup p.transactions_by_id tid = none)
    (hfc : p.find_or_create_client cid = (p1, cl)) (h3 : cl.locked = false)
    (h4 : cl.available < a) :
    p.withdraw tid cid a = (p1, some .insufficientFunds) := by
  simp [Processor.withdraw, check_of_none h1, hfc,
    Client.withdraw_err_insufficient h3 h4]

theorem withdraw_of_sufficient {p p1 : Processor} {tid : TransactionID}
    {cid : ClientID} {cl : Client} {a : Amount}
    (h1 : alookup p.transactions_by_id tid = none)
    (hfc : p.find_or_create_client cid = (p1, cl)) (h3 : cl.locked = false)
    (h4 : ¬ cl.available < a) :
    p.withdraw tid cid a =
      ({ clients_by_id := ainsert p1.clients_by_id cid { cl with total := cl.total - a },
         transactions_by_id :=
           ainsert p1.transactions_by_id tid (Transaction.new cid a .Withdrawal) },
       none) := by
  simp [Processor.withdraw, check_of_none h1, hfc,
    Client.withdraw_ok_sufficient h3 h4]

/-- The dispute status a dispute-step kind tries to move a transaction to. -/
def targetStatus : DisputeStepKind → DisputeStatus
  | .Dispute => .Pending
  | .Resolve => .None
  | .Chargeback => .ChargedBack

theorem dstep_of_tx_none {p : Processor} {tid : TransactionID}
    (k : DisputeStepKind) (cid : ClientID)
    (h : alookup p.transactions_by_id tid = none) :
    p.process_event (.DisputeStep k tid cid) =
      (p, some (.transactionNotFound tid)) := by
  cases k <;>
    simp [Processor.process_event, Processor.dispute, Processor.resolve,
      Processor.chargeback, get_tc_of_tx_none h]

theorem dstep_of_client_none {p : Processor} {tid : TransactionID}
    {t : Transaction} (k : DisputeStepKind) (cid : ClientID)
    (h : alookup p.transactions_by_id tid = some t)
    (h2 : alookup p.clients_by_id t.client_id = none) :
    p.process_event (.DisputeStep k tid cid) =
      (p, some (.clientNotFound t.client_id)) := by
  cases k <;>
    simp [Processor.process_event, Processor.dispute, Processor.resolve,
      Processor.chargeback, get_tc_of_client_none h h2]

theorem dstep_of_mismatch {p : Processor} {tid : TransactionID}
    {t : Transaction} {cl : Client} {cid : ClientID} (k : DisputeStepKind)
    (h : alookup p.transactions_by_id tid = some t)
    (h2 : alookup p.clients_by_id t.client_id = some cl)
    (h3 : cid ≠ t.client_id) :
    p.process_event (.DisputeStep k tid cid) =
      (p, some (.clientMismatch cid t.client_id)) := by
  cases k <;>
    simp [Processor.process_event, Processor.dispute, Processor.resolve,
      Processor.chargeback, get_tc_of_some h h2, check_owns_of_ne h3]

theorem dstep_of_invalid {p : Processor} {tid : TransactionID}
    {t : Transaction} {cl : Client} {e : PErr} {k : DisputeStepKind}
    (h : alookup p.transactions_by_id tid = some t)
    (h2 : alookup p.clients_by_id t.client_id = some cl)
    (h4 : t.validate_dispute_status_transition (targetStatus k) = .error e) :
    p.process_event (.DisputeStep k tid t.client_id) = (p, some e) := by
  cases k <;>
    simp only [targetStatus] at h4 <;>
    simp [Processor.process_event, Processor.dispute, Processor.resolve,
      Processor.chargeback, get_tc_of_some h h2, check_owns_of_eq rfl, h4]

theorem dispute_success {p : Processor} {tid : TransactionID}
    {t : Transaction} {cl : Client}
    (h : alookup p.transactions_by_id tid = some t)
    (h2 : alookup p.clients_by_id t.client_id = some cl)
    (h3 : t.dispute_status = .None) :
    p.dispute tid t.client_id =
      ({ clients_by_id :=
           ainsert p.clients_by_id t.client_id (cl.hold t.signedAmount),
         transactions_by_id :=
           ainsert p.transactions_by_id tid { t with dispute_status := .Pending } },
       none) := by
  cases hk : t.kind <;>
    simp [Processor.dispute, get_tc_of_some h h2, check_owns_of_eq rfl,
      validate_none_pending h3, Transaction.signedAmount, hk]

theorem resolve_success {p : Processor} {tid : TransactionID}
    {t : Transaction} {cl : Client}
    (h : alookup p.transactions_by_id tid = some t)
    (h2 : alookup p.clients_by_id t.client_id = some cl)
    (h3 : t.dispute_status = .Pending) :
    p.resolve tid t.client_id =
      ({ clients_by_id :=
           ainsert p.clients_by_id t.client_id (cl.hold (-t.signedAmount)),
         transactions_by_id :=
           ainsert p.transactions_by_id tid { t with dispute_status := .None } },
       none) := by
  cases hk : t.kind <;>
    simp [Processor.resolve, get_tc_of_some h h2, check_owns_of_eq rfl,
      validate_pending_none h3, Transaction.signedAmount, hk]

theorem chargeback_success {p : Processor} {tid : TransactionID}
    {t : Transaction} {cl : Client}
    (h : alookup p.transactions_by_id tid = some t)
    (h2 : alookup p.clients_by_id t.client_id = some cl)
    (h3 : t.dispute_status = .Pending) :
    p.chargeback tid t.client_id =
      ({ clients_by_id :=
           ainsert p.clients_by_id t.client_id (cl.chargeback t.signedAmount),
         transactions_by_id :=
           ainsert p.transactions_by_id tid
             { t with dispute_status := .ChargedBack } },
       none) := by
  cases hk : t.kind <;>
    simp [Processor.chargeback, get_tc_of_some h h2, check_owns_of_eq rfl,
      validate_pending_chargedback h3, Transaction.signedAmount, hk]

end Challenge


namespace Challenge

/-! ### Exhaustive outcome analyses -/

theorem find_or_create_cases (p : Processor) (cid : ClientID) :
    (∃ cl, alookup p.clients_by_id cid = some cl ∧
      p.find_or_create_client cid = (p, cl)) ∨
    (alookup p.clients_by_id cid = none ∧
      p.find_or_create_client cid =
        ({ p with clients_by_id := ainsert p.clients_by_id cid Client.new },
         Client.new)) := by
  cases h : alookup p.clients_by_id cid with
  | some cl => exact Or.inl ⟨cl, rfl, find_or_create_of_some h⟩
  | none => exact Or.inr ⟨rfl, find_or_create_of_none h⟩

theorem deposit_cases (p : Processor) (tid : TransactionID) (cid : ClientID)
    (a : Amount) :
    ((alookup p.transactions_by_id tid).isSome ∧
      p.deposit tid cid a = (p, some (.transactionExists tid))) ∨
    (∃ p1 cl, alookup p.transactions_by_id tid = none ∧
      p.find_or_create_client cid = (p1, cl) ∧
      ((cl.locked = true ∧ p.deposit tid cid a = (p1, some .cannotDepositLocked)) ∨
       (cl.locked = false ∧ p.deposit tid cid a =
         ({ clients_by_id :=
              ainsert p1.clients_by_id cid { cl with total := cl.total + a },
            transactions_by_id := ainsert p1.transactions_by_id tid
              (Transaction.new cid a .Deposit) }, none)))) := by
  cases htx : alookup p.transactions_by_id tid with
  | some t => exact Or.inl ⟨by simp, deposit_of_dup (by simp [htx]) cid a⟩
  | none =>
    obtain ⟨cl, hcl, hfc⟩ | ⟨hcl, hfc⟩ := find_or_create_cases p cid
    · refine Or.inr ⟨p, cl, rfl, hfc, ?_⟩
      by_cases h3 : cl.locked = true
      · exact Or.inl ⟨h3, deposit_of_locked htx hfc h3 a⟩
      · have h3' : cl.locked = false := by simpa using h3
        exact Or.inr ⟨h3', deposit_of_unlocked htx hfc h3' a⟩
    · refine Or.inr ⟨_, Client.new, rfl, hfc, ?_⟩
      exact Or.inr ⟨rfl, deposit_of_unlocked htx hfc rfl a⟩

theorem withdraw_cases (p : Processor) (tid : TransactionID) (cid : ClientID)
    (a : Amount) :
    ((alookup p.transactions_by_id tid).isSome ∧
      p.withdraw tid cid a = (p, some (.transactionExists tid))) ∨
    (∃ p1 cl, alookup p.transactions_by_id tid = none ∧
      p.find_or_create_client cid = (p1, cl) ∧
      ((cl.locked = true ∧ p.withdraw tid cid a = (p1, some .cannotWithdrawLocked)) ∨
       (cl.locked = false ∧ cl.available < a ∧
         p.withdraw tid cid a = (p1, some .insufficientFunds)) ∨
       (cl.locked = false ∧ ¬ cl.available < a ∧ p.withdraw tid cid a =
         ({ clients_by_id :=
              ainsert p1.clients_by_id cid { cl with total := cl.total - a },
            transactions_by_id := ainsert p1.transactions_by_id tid
              (Transaction.new cid a .Withdrawal) }, none)))) := by
  cases htx : alookup p.transactions_by_id tid with
  | some t => exact Or.inl ⟨by simp, withdraw_of_dup (by simp [htx]) cid a⟩
  | none =>
    obtain ⟨cl, hcl, hfc⟩ | ⟨hcl, hfc⟩ := find_or_create_cases p cid
    · refine Or.inr ⟨p, cl, rfl, hfc, ?_⟩
      by_cases h3 : cl.locked = true
      · exact Or.inl ⟨h3, withdraw_of_locked htx hfc h3 a⟩
      · have h3' : cl.locked = false := by simpa using h3
        by_cases h4 : cl.available < a
        · exact Or.inr (Or.inl ⟨h3', h4, withdraw_of_insufficient htx hfc h3' h4⟩)
        · exact Or.inr (Or.inr ⟨h3', h4, withdraw_of_sufficient htx hfc h3' h4⟩)
    · refine Or.inr ⟨_, Client.new, rfl, hfc, ?_⟩
      by_cases h4 : Client.new.available < a
      · exact Or.inr (Or.inl ⟨rfl, h4, withdraw_of_insufficient htx hfc rfl h4⟩)
      · exact Or.inr (Or.inr ⟨rfl, h4, withdraw_of_sufficient htx hfc rfl h4⟩)

/-- The dispute status a transaction must currently have for a dispute-step
kind to be accepted. -/
def sourceStatus : DisputeStepKind → DisputeStatus
  | .Dispute => .None
  | .Resolve => .Pending
  | .Chargeback => .Pending

/-- The client mutation a successful dispute step performs, with the kind
match of the source collapsed through `signedAmount`. -/
def applyStep (k : DisputeStepKind) (cl : Client) (t : Transaction) : Client :=
  match k with
  | .Dispute => cl.hold t.signedAmount
  | .Resolve => cl.hold (-t.signedAmount)
  | .Chargeback => cl.chargeback t.signedAmount

theorem validate_ok_inv {t : Transaction} {k : DisputeStepKind}
    (h : t.validate_dispute_status_transition (targetStatus k) = .ok ()) :
    t.dispute_status = sourceStatus k := by
  cases k <;> cases hs : t.dispute_status <;>
    simp [Transaction.validate_dispute_status_transition, targetStatus,
      sourceStatus, hs] at h ⊢

theorem dstep_success {p : Processor} {tid : TransactionID} {t : Transaction}
    {cl : Client} (k : DisputeStepKind)
    (h : alookup p.transactions_by_id tid = some t)
    (h2 : alookup p.clients_by_id t.client_id = some cl)
    (h3 : t.dispute_status = sourceStatus k) :
    p.process_event (.DisputeStep k tid t.client_id) =
      ({ clients_by_id := ainsert p.clients_by_id t.client_id (applyStep k cl t),
         transactions_by_id := ainsert p.transactions_by_id tid
           { t with dispute_status := targetStatus k } }, none) := by
  cases k
  · exact dispute_success h h2 h3
  · exact resolve_success h h2 h3
  · exact chargeback_success h h2 h3

theorem dstep_cases (p : Processor) (k : DisputeStepKind)
    (tid : TransactionID) (cid : ClientID) :
    (alookup p.transactions_by_id tid = none ∧
      p.process_event (.DisputeStep k tid cid) =
        (p, some (.transactionNotFound tid))) ∨
    (∃ t, alookup p.transactions_by_id tid = some t ∧
      ((alookup p.clients_by_id t.client_id = none ∧
         p.process_event (.DisputeStep k tid cid) =
           (p, some (.clientNotFound t.client_id))) ∨
       (∃ cl, alookup p.clients_by_id t.client_id = some cl ∧
         ((cid ≠ t.client_id ∧ p.process_event (.DisputeStep k tid cid) =
             (p, some (.clientMismatch cid t.client_id))) ∨
          (cid = t.client_id ∧
            ((∃ e, t.validate_dispute_status_transition (targetStatus k) = .error e ∧
               p.process_event (.DisputeStep k tid cid) = (p, some e)) ∨
             (t.dispute_status = sourceStatus k ∧
               p.process_event (.DisputeStep k tid cid) =
                 ({ clients_by_id :=
                      ainsert p.clients_by_id t.client_id (applyStep k cl t),
                    transactions_by_id := ainsert p.transactions_by_id tid
                      { t with dispute_status := targetStatus k } },
                  none)))))))) := by
  cases h1 : alookup p.transactions_by_id tid with
  | none => exact Or.inl ⟨rfl, dstep_of_tx_none k cid h1⟩
  | some t =>
    refine Or.inr ⟨t, rfl, ?_⟩
    cases h2 : alookup p.clients_by_id t.client_id with
    | none => exact Or.inl ⟨rfl, dstep_of_client_none k cid h1 h2⟩
    | some cl =>
      refine Or.inr ⟨cl, rfl, ?_⟩
      by_cases hcid : cid = t.client_id
      · subst hcid
        refine Or.inr ⟨rfl, ?_⟩
        cases hv : t.validate_dispute_status_transition (targetStatus k) with
        | error e => exact Or.inl ⟨e, rfl, dstep_of_invalid h1 h2 hv⟩
        | ok u =>
          cases u
          exact Or.inr ⟨validate_ok_inv hv, dstep_success k h1 h2 (validate_ok_inv hv)⟩
      · exact Or.inl ⟨hcid, dstep_of_mismatch k h1 h2 hcid⟩

end Challenge

namespace Challenge

/-! ### State after a rejected event -/

theorem dstep_err_fst {p : Processor} {k : DisputeStepKind}
    {tid : TransactionID} {cid : ClientID}
    (h : (p.process_event (.DisputeStep k tid cid)).2.isSome) :
    (p.process_event (.DisputeStep k tid cid)).1 = p := by
  rcases dstep_cases p k tid cid with ⟨_, heq⟩ | ⟨t, ht, hbr⟩
  · rw [heq]
  · rcases hbr with ⟨_, heq⟩ | ⟨cl, hcl, hbr⟩
    · rw [heq]
    · rcases hbr with ⟨_, heq⟩ | ⟨hcid, hbr⟩
      · rw [heq]
      · rcases hbr with ⟨e, _, heq⟩ | ⟨_, heq⟩
        · rw [heq]
        · rw [heq] at h
          simp at h

theorem process_event_err_state (p : Processor) (e : Event)
    (h : (p.process_event e).2.isSome) :
    (p.process_event e).1.transactions_by_id = p.transactions_by_id ∧
    ((p.process_event e).1.clients_by_id = p.clients_by_id ∨
      (alookup p.clients_by_id e.client_id = none ∧
       (p.process_event e).1.clients_by_id =
         ainsert p.clients_by_id e.client_id Client.new)) := by
  cases e with
  | Transaction k tid cid a =>
    cases htx : alookup p.transactions_by_id tid with
    | some t =>
      cases k
      · rw [process_event_deposit, deposit_of_dup (by simp [htx]) cid a]
        exact ⟨rfl, Or.inl rfl⟩
      · rw [process_event_withdrawal, withdraw_of_dup (by simp [htx]) cid a]
        exact ⟨rfl, Or.inl rfl⟩
    | none =>
      obtain ⟨cl, hcl, hfc⟩ | ⟨hcl, hfc⟩ := find_or_create_cases p cid
      · cases k
        · by_cases hl : cl.locked = true
          · rw [process_event_deposit, deposit_of_locked htx hfc hl a]
            exact ⟨rfl, Or.inl rfl⟩
          · have hl' : cl.locked = false := by simpa using hl
            rw [process_event_deposit, deposit_of_unlocked htx hfc hl' a] at h
            simp at h
        · by_cases hl : cl.locked = true
          · rw [process_event_withdrawal, withdraw_of_locked htx hfc hl a]
            exact ⟨rfl, Or.inl rfl⟩
          · have hl' : cl.locked = false := by simpa using hl
            by_cases h4 : cl.available < a
            · rw [process_event_withdrawal, withdraw_of_insufficient htx hfc hl' h4]
              exact ⟨rfl, Or.inl rfl⟩
            · rw [process_event_withdrawal, withdraw_of_sufficient htx hfc hl' h4] at h
              simp at h
      · cases k
        · rw [process_event_deposit, deposit_of_unlocked htx hfc rfl a] at h
          simp at h
        · by_cases h4 : Client.new.available < a
          · rw [process_event_withdrawal, withdraw_of_insufficient htx hfc rfl h4]
            exact ⟨rfl, Or.inr ⟨hcl, rfl⟩⟩
          · rw [process_event_withdrawal, withdraw_of_sufficient htx hfc rfl h4] at h
            simp at h
  | DisputeStep k tid cid =>
    rw [dstep_err_fst h]
    exact ⟨rfl, Or.inl rfl⟩

end Challenge

namespace Challenge

theorem find_or_create_fst_txs (p : Processor) (cid : ClientID) :
    (p.find_or_create_client cid).1.transactions_by_id =
      p.transactions_by_id := by
  obtain ⟨cl, _, hfc⟩ | ⟨_, hfc⟩ := find_or_create_cases p cid <;> rw [hfc]

/-- A transaction id absent from the map stays absent across any event that is
not a deposit/withdrawal carrying that id. -/
theorem alookup_txs_step_none {p : Processor} {e : Event} {tid : TransactionID}
    (h : alookup p.transactions_by_id tid = none)
    (he : ∀ k cid a, e ≠ .Transaction k tid cid a) :
    alookup (p.process_event e).1.transactions_by_id tid = none := by
  cases e with
  | Transaction k tid2 cid a =>
    have hne : tid2 ≠ tid := fun hh => he k cid a (by rw [hh])
    have hpe : ∀ p1 cl, p.find_or_create_client cid = (p1, cl) →
        alookup p1.transactions_by_id tid = none := by
      intro p1 cl hfc
      have hh := find_or_create_fst_txs p cid
      rw [hfc] at hh
      rw [hh]
      exact h
    cases k
    · rcases deposit_cases p tid2 cid a with ⟨_, heq⟩ | ⟨p1, cl, htx, hfc, hbr⟩
      · rw [process_event_deposit, heq]; exact h
      · rcases hbr with ⟨_, heq⟩ | ⟨_, heq⟩
        · rw [process_event_deposit, heq]; exact hpe p1 cl hfc
        · rw [process_event_deposit, heq]
          rw [alookup_ainsert_ne _ hne]
          exact hpe p1 cl hfc
    · rcases withdraw_cases p tid2 cid a with ⟨_, heq⟩ | ⟨p1, cl, htx, hfc, hbr⟩
      · rw [process_event_withdrawal, heq]; exact h
      · rcases hbr with ⟨_, heq⟩ | ⟨_, _, heq⟩ | ⟨_, _, heq⟩
        · rw [process_event_withdrawal, heq]; exact hpe p1 cl hfc
        · rw [process_event_withdrawal, heq]; exact hpe p1 cl hfc
        · rw [process_event_withdrawal, heq]
          rw [alookup_ainsert_ne _ hne]
          exact hpe p1 cl hfc
  | DisputeStep k tid2 cid =>
    rcases dstep_cases p k tid2 cid with ⟨_, heq⟩ | ⟨t, ht, hbr⟩
    · rw [heq]; exact h
    · have hne : tid2 ≠ tid := by
        intro hh
        rw [hh, h] at ht
        exact Option.noConfusion ht
      rcases hbr with ⟨_, heq⟩ | ⟨cl, hcl, hbr⟩
      · rw [heq]; exact h
      · rcases hbr with ⟨_, heq⟩ | ⟨hcid, hbr⟩
        · rw [heq]; exact h
        · rcases hbr with ⟨e2, _, heq⟩ | ⟨_, heq⟩
          · rw [heq]; exact h
          · rw [heq]
            rw [alookup_ainsert_ne _ hne]
            exact h

theorem alookup_txs_processEvents_none {tid : TransactionID} :
    ∀ (es : List Event) (p : Processor),
      alookup p.transactions_by_id tid = none →
      (∀ e ∈ es, ∀ k cid a, e ≠ Event.Transaction k tid cid a) →
      alookup (processEvents p es).transactions_by_id tid = none := by
  intro es
  induction es with
  | nil => intro p h _; exact h
  | cons e rest ih =>
    intro p h hes
    have h1 := alookup_txs_step_none h (hes e (List.mem_cons_self _ _))
    exact ih _ h1 fun e2 he2 => hes e2 (List.mem_cons_of_mem _ he2)

end Challenge

namespace Challenge

/-- C1 counterexample: a withdrawal for a brand-new client is rejected with
`insufficientFunds`, yet it creates that client's entry in the client map, so
a recoverable error is not always a no-op on the data model. -/
theorem c1_counterexample :
    (Processor.new.process_event (.Transaction .Withdrawal 1 1 10)).2 =
      some .insufficientFunds ∧
    (Processor.new.process_event
        (.Transaction .Withdrawal 1 1 10)).1.clients_by_id ≠
      Processor.new.clients_by_id := by
  norm_num [Processor.process_event, Processor.withdraw, Processor.new,
    Processor.check_transaction_does_not_exist, Processor.find_or_create_client,
    alookup, ainsert, Client.withdraw, Client.available, Client.new]

/-- C1 (amended): an event rejected with a recoverable error leaves the
transaction map exactly as it was, and leaves the client map unchanged except
that a rejected deposit/withdrawal naming a client absent from the map may
have created that client's fresh default entry (the find-or-create step runs
before the balance check that fails). -/
theorem c1_rejected_event_state (p : Processor) (e : Event)
    (h : (p.process_event e).2.isSome) :
    (p.process_event e).1.transactions_by_id = p.transactions_by_id ∧
    ((p.process_event e).1.clients_by_id = p.clients_by_id ∨
      (alookup p.clients_by_id e.client_id = none ∧
       (p.process_event e).1.clients_by_id =
         ainsert p.clients_by_id e.client_id Client.new)) :=
  process_event_err_state p e h

/-- Witness for C1: the amended theorem applied to a dispute of a missing
transaction. -/
theorem c1_witness :
    (Processor.new.process_event (.DisputeStep .Dispute 1 1)).2.isSome ∧
    ((Processor.new.process_event
        (.DisputeStep .Dispute 1 1)).1.transactions_by_id =
      Processor.new.transactions_by_id ∧
    ((Processor.new.process_event (.DisputeStep .Dispute 1 1)).1.clients_by_id =
        Processor.new.clients_by_id ∨
      (alookup Processor.new.clients_by_id
          (Event.DisputeStep .Dispute 1 1).client_id = none ∧
       (Processor.new.process_event (.DisputeStep .Dispute 1 1)).1.clients_by_id =
         ainsert Processor.new.clients_by_id
           (Event.DisputeStep .Dispute 1 1).client_id Client.new))) :=
  ⟨by norm_num [Processor.process_event, Processor.dispute, Processor.new,
      Processor.get_transaction_and_client, alookup],
   c1_rejected_event_state Processor.new (.DisputeStep .Dispute 1 1)
     (by norm_num [Processor.process_event, Processor.dispute, Processor.new,
       Processor.get_transaction_and_client, alookup])⟩

end Challenge

namespace Challenge

/-- C2 counterexample: a withdrawal that fails with `insufficientFunds` leaves
no record for its transaction id, but a later deposit may successfully reuse
that id, after which a dispute naming the id succeeds — so not *every* later
dispute fails with `TransactionNotFound`. -/
theorem c2_counterexample :
    trace [.Transaction .Withdrawal 1 1 10, .Transaction .Deposit 1 1 5,
        .DisputeStep .Dispute 1 1] =
      [(.Transaction .Withdrawal 1 1 10, some .insufficientFunds),
       (.Transaction .Deposit 1 1 5, none),
       (.DisputeStep .Dispute 1 1, none)] := by
  norm_num [trace, traceFrom, Processor.process_event, Processor.withdraw,
    Processor.deposit, Processor.dispute, Processor.new,
    Processor.check_transaction_does_not_exist, Processor.find_or_create_client,
    Processor.get_transaction_and_client, Processor.check_client_owns_transaction,
    Transaction.validate_dispute_status_transition, Transaction.new,
    alookup, ainsert, Client.withdraw, Client.deposit, Client.available,
    Client.new, Client.hold]

/-- C2 (amended): a withdrawal rejected with `insufficientFunds` or the
locked-account error creates no Transaction record for its transaction id, and
every later dispute naming that id fails with `TransactionNotFound` as long as
no intervening deposit/withdrawal event names that id (such an event may
successfully reuse the id, because no record occupies it). -/
theorem c2_failed_withdrawal_not_disputable (p : Processor)
    (tid : TransactionID) (cid : ClientID) (a : Amount) (es : List Event)
    (cid2 : ClientID)
    (herr : (p.process_event (.Transaction .Withdrawal tid cid a)).2 =
        some .insufficientFunds ∨
      (p.process_event (.Transaction .Withdrawal tid cid a)).2 =
        some .cannotWithdrawLocked)
    (hes : ∀ e ∈ es, ∀ k c2 a2, e ≠ Event.Transaction k tid c2 a2) :
    alookup (p.process_event
        (.Transaction .Withdrawal tid cid a)).1.transactions_by_id tid = none ∧
    (processEvents (p.process_event (.Transaction .Withdrawal tid cid a)).1
          es).process_event (.DisputeStep .Dispute tid cid2) =
      (processEvents (p.process_event (.Transaction .Withdrawal tid cid a)).1 es,
       some (.transactionNotFound tid)) := by
  have habs : alookup (p.process_event
      (.Transaction .Withdrawal tid cid a)).1.transactions_by_id tid = none := by
    rcases withdraw_cases p tid cid a with ⟨_, heq⟩ | ⟨p1, cl, htx, hfc, hbr⟩
    · rw [process_event_withdrawal, heq] at herr
      rcases herr with herr | herr <;> simp at herr
    · have hp1 : alookup p1.transactions_by_id tid = none := by
        have hh := find_or_create_fst_txs p cid
        rw [hfc] at hh
        rw [hh]
        exact htx
      rcases hbr with ⟨_, heq⟩ | ⟨_, _, heq⟩ | ⟨_, _, heq⟩
      · rw [process_event_withdrawal, heq]; exact hp1
      · rw [process_event_withdrawal, heq]; exact hp1
      · rw [process_event_withdrawal, heq] at herr
        rcases herr with herr | herr <;> simp at herr
  have habs2 := alookup_txs_processEvents_none es _ habs hes
  exact ⟨habs, dstep_of_tx_none .Dispute cid2 habs2⟩

/-- Witness for C2: the amended theorem applied to an insufficient-funds
withdrawal followed by no events. -/
theorem c2_witness :
    (Processor.new.process_event (.Transaction .Withdrawal 1 1 10)).2 =
      some .insufficientFunds ∧
    (alookup (Processor.new.process_event
        (.Transaction .Withdrawal 1 1 10)).1.transactions_by_id 1 = none ∧
    (processEvents (Processor.new.process_event
          (.Transaction .Withdrawal 1 1 10)).1 []).process_event
        (.DisputeStep .Dispute 1 2) =
      (processEvents (Processor.new.process_event
          (.Transaction .Withdrawal 1 1 10)).1 [],
       some (.transactionNotFound 1))) := by
  have herr : (Processor.new.process_event
      (.Transaction .Withdrawal 1 1 10)).2 = some .insufficientFunds := by
    norm_num [Processor.process_event, Processor.withdraw, Processor.new,
      Processor.check_transaction_does_not_exist, Processor.find_or_create_client,
      alookup, ainsert, Client.withdraw, Client.available, Client.new]
  exact ⟨herr,
    c2_failed_withdrawal_not_disputable Processor.new 1 1 10 [] 2
      (Or.inl herr) (by simp)⟩

/-- C3 counterexample: two events reusing transaction id 1 where the first (a
withdrawal) fails with `insufficientFunds`: the only created Transaction comes
from the *second* event, and the only rejection is of the *first*, not a
duplicate-transaction rejection of the second. -/
theorem c3_counterexample :
    trace [.Transaction .Withdrawal 1 1 10, .Transaction .Deposit 1 1 5] =
      [(.Transaction .Withdrawal 1 1 10, some .insufficientFunds),
       (.Transaction .Deposit 1 1 5, none)] ∧
    alookup (run [.Transaction .Withdrawal 1 1 10,
        .Transaction .Deposit 1 1 5]).transactions_by_id 1 =
      some (Transaction.new 1 5 .Deposit) := by
  norm_num [trace, traceFrom, run, processEvents, Processor.process_event,
    Processor.withdraw, Processor.deposit, Processor.new,
    Processor.check_transaction_does_not_exist, Processor.find_or_create_client,
    alookup, ainsert, Client.withdraw, Client.deposit, Client.available,
    Client.new, Transaction.new]

/-- C3 (amended): when the first of two deposit/withdrawal events sharing a
transaction id is *accepted*, it creates the id's Transaction record, and the
second is rejected with the duplicate-transaction error, changing nothing. -/
theorem c3_duplicate_after_accepted (p : Processor) (k k2 : TransactionKind)
    (tid : TransactionID) (cid cid2 : ClientID) (a a2 : Amount)
    (h : (p.process_event (.Transaction k tid cid a)).2 = none) :
    alookup (p.process_event
        (.Transaction k tid cid a)).1.transactions_by_id tid =
      some (Transaction.new cid a k) ∧
    (p.process_event (.Transaction k tid cid a)).1.process_event
        (.Transaction k2 tid cid2 a2) =
      ((p.process_event (.Transaction k tid cid a)).1,
       some (.transactionExists tid)) := by
  have hrec : alookup (p.process_event
      (.Transaction k tid cid a)).1.transactions_by_id tid =
      some (Transaction.new cid a k) := by
    cases k
    · rcases deposit_cases p tid cid a with ⟨_, heq⟩ | ⟨p1, cl, htx, hfc, hbr⟩
      · rw [process_event_deposit, heq] at h; simp at h
      · rcases hbr with ⟨_, heq⟩ | ⟨_, heq⟩
        · rw [process_event_deposit, heq] at h; simp at h
        · rw [process_event_deposit, heq]
          exact alookup_ainsert_self _ _ _
    · rcases withdraw_cases p tid cid a with ⟨_, heq⟩ | ⟨p1, cl, htx, hfc, hbr⟩
      · rw [process_event_withdrawal, heq] at h; simp at h
      · rcases hbr with ⟨_, heq⟩ | ⟨_, _, heq⟩ | ⟨_, _, heq⟩
        · rw [process_event_withdrawal, heq] at h; simp at h
        · rw [process_event_withdrawal, heq] at h; simp at h
        · rw [process_event_withdrawal, heq]
          exact alookup_ainsert_self _ _ _
  refine ⟨hrec, ?_⟩
  have hsome : (alookup (p.process_event
      (.Transaction k tid cid a)).1.transactions_by_id tid).isSome := by
    rw [hrec]; rfl
  cases k2
  · rw [process_event_deposit, deposit_of_dup hsome cid2 a2]
  · rw [process_event_withdrawal, withdraw_of_dup hsome cid2 a2]

/-- Witness for C3: the amended theorem applied to an accepted deposit
followed by a deposit reusing its transaction id. -/
theorem c3_witness :
    (Processor.new.process_event (.Transaction .Deposit 1 1 5)).2 = none ∧
    (alookup (Processor.new.process_event
        (.Transaction .Deposit 1 1 5)).1.transactions_by_id 1 =
      some (Transaction.new 1 5 .Deposit) ∧
    (Processor.new.process_event (.Transaction .Deposit 1 1 5)).1.process_event
        (.Transaction .Deposit 1 2 7) =
      ((Processor.new.process_event (.Transaction .Deposit 1 1 5)).1,
       some (.transactionExists 1))) := by
  have h : (Processor.new.process_event (.Transaction .Deposit 1 1 5)).2 = none := by
    norm_num [Processor.process_event, Processor.deposit, Processor.new,
      Processor.check_transaction_does_not_exist, Processor.find_or_create_client,
      alookup, ainsert, Client.deposit, Client.new]
  exact ⟨h, c3_duplicate_after_accepted Processor.new .Deposit .Deposit 1 1 2 5 7 h⟩

end Challenge

namespace Challenge

theorem validate_src_ok {t : Transaction} {k : DisputeStepKind}
    (h : t.dispute_status = sourceStatus k) :
    t.validate_dispute_status_transition (targetStatus k) = .ok () := by
  cases k <;>
    simp [Transaction.validate_dispute_status_transition, targetStatus,
      sourceStatus, h]

/-- C5: every dispute/resolve/chargeback that fails changes nothing at all
(atomicity: the transition check runs before any balance mutation), and in
particular an illegal dispute-status transition makes the event fail with the
state and balances untouched; when ownership and client lookup succeed the
reported error is exactly the transition-validation error. -/
theorem c5_illegal_transition_no_change :
    (∀ (p : Processor) (k : DisputeStepKind) (tid : TransactionID)
        (cid : ClientID),
      (p.process_event (.DisputeStep k tid cid)).2.isSome →
      (p.process_event (.DisputeStep k tid cid)).1 = p) ∧
    (∀ (p : Processor) (k : DisputeStepKind) (tid : TransactionID)
        (cid : ClientID) (t : Transaction) (e : PErr),
      alookup p.transactions_by_id tid = some t →
      t.validate_dispute_status_transition (targetStatus k) = .error e →
      (p.process_event (.DisputeStep k tid cid)).1 = p ∧
      (p.process_event (.DisputeStep k tid cid)).2.isSome ∧
      (cid = t.client_id →
        (alookup p.clients_by_id t.client_id).isSome →
        (p.process_event (.DisputeStep k tid cid)).2 = some e)) := by
  constructor
  · intro p k tid cid h
    exact dstep_err_fst h
  · intro p k tid cid t e ht hv
    rcases dstep_cases p k tid cid with ⟨hnone, _⟩ | ⟨t2, ht2, hbr⟩
    · rw [ht] at hnone
      exact Option.noConfusion hnone
    · rw [ht] at ht2
      have htt : t2 = t := Option.some.inj ht2.symm
      subst htt
      rcases hbr with ⟨hclnone, heq⟩ | ⟨cl, hcl, hbr⟩
      · refine ⟨by rw [heq], by rw [heq]; rfl, ?_⟩
        intro _ hsome
        rw [hclnone] at hsome
        exact absurd hsome (by simp)
      · rcases hbr with ⟨hne, heq⟩ | ⟨hcid, hbr⟩
        · refine ⟨by rw [heq], by rw [heq]; rfl, ?_⟩
          intro hcid _
          exact absurd hcid hne
        · rcases hbr with ⟨e2, hv2, heq⟩ | ⟨hsrc, _⟩
          · have hee : e2 = e := by
              rw [hv] at hv2
              exact (Except.error.inj hv2).symm
            subst hee
            exact ⟨by rw [heq], by rw [heq]; rfl, fun _ _ => by rw [heq]⟩
          · rw [validate_src_ok hsrc] at hv
            exact Except.noConfusion hv

/-- A processor state holding one locked client who owns one charged-back
deposit of 100, used as a concrete witness input. -/
def cbState : Processor :=
  { clients_by_id := [(1, { held := 0, total := 0, locked := true })],
    transactions_by_id :=
      [(1, { client_id := 1, amount := 100, kind := .Deposit,
             dispute_status := .ChargedBack })] }

/-- Witness for C5: disputing an already-charged-back transaction fails with
the already-charged-back error and leaves the state untouched. -/
theorem c5_witness :
    alookup cbState.transactions_by_id 1 =
      some { client_id := 1, amount := 100, kind := .Deposit,
             dispute_status := .ChargedBack } ∧
    (cbState.process_event (.DisputeStep .Dispute 1 1)).1 = cbState ∧
    (cbState.process_event (.DisputeStep .Dispute 1 1)).2.isSome ∧
    (cbState.process_event (.DisputeStep .Dispute 1 1)).2 =
      some .alreadyChargedBack := by
  have h := c5_illegal_transition_no_change.2 cbState .Dispute 1 1
    { client_id := 1, amount := 100, kind := .Deposit,
      dispute_status := .ChargedBack } .alreadyChargedBack rfl rfl
  exact ⟨rfl, h.1, h.2.1, h.2.2 rfl (by rfl)⟩

/-- C9: the withdraw operation of the client ledger fails with the locked
error when the account is locked, fails with insufficient funds when
`available < amount`, otherwise subtracts the amount from `total`; it never
succeeds when the amount exceeds the available balance, and a failed
withdrawal event leaves every client's total unchanged. -/
theorem c9_withdraw_spec :
    (∀ (c : Client) (a : Amount),
      (c.locked = true → c.withdraw a = .error .cannotWithdrawLocked) ∧
      (c.locked = false → c.available < a →
        c.withdraw a = .error .insufficientFunds) ∧
      (c.locked = false → ¬ c.available < a →
        c.withdraw a = .ok { c with total := c.total - a }) ∧
      (c.available < a → ∀ c2, ¬ c.withdraw a = .ok c2)) ∧
    (∀ (p : Processor) (tid : TransactionID) (cid : ClientID) (a : Amount),
      (p.process_event (.Transaction .Withdrawal tid cid a)).2.isSome →
      ∀ c, (p.process_event (.Transaction .Withdrawal tid cid a)).1.totalOf c =
        p.totalOf c) := by
  constructor
  · intro c a
    refine ⟨fun hl => Client.withdraw_err_locked hl a,
      fun hl h2 => Client.withdraw_err_insufficient hl h2,
      fun hl h2 => Client.withdraw_ok_sufficient hl h2, ?_⟩
    intro h2 c2 hok
    by_cases hl : c.locked = true
    · rw [Client.withdraw_err_locked hl a] at hok
      exact Except.noConfusion hok
    · have hl' : c.locked = false := by simpa using hl
      rw [Client.withdraw_err_insufficient hl' h2] at hok
      exact Except.noConfusion hok
  · intro p tid cid a h c
    obtain ⟨htx, hcl⟩ := process_event_err_state p
      (.Transaction .Withdrawal tid cid a) h
    rcases hcl with hcl | ⟨hnone, hcl⟩
    · simp [Processor.totalOf, hcl]
    · by_cases hc : c = cid
      · subst hc
        simp only [Event.client_id] at hnone hcl
        simp [Processor.totalOf, hcl, alookup_ainsert_self, hnone, Client.new]
      · simp only [Event.client_id] at hnone hcl
        have hne : cid ≠ c := fun hh => hc hh.symm
        simp [Processor.totalOf, hcl, alookup_ainsert_ne _ hne]

/-- Witness for C9: an insufficient-funds withdrawal on a concrete client, and
a failed withdrawal event leaving a concrete client total unchanged. -/
theorem c9_witness :
    (({ held := 0, total := 5, locked := false } : Client).withdraw 10 =
      .error .insufficientFunds) ∧
    (Processor.new.process_event
        (.Transaction .Withdrawal 1 1 10)).1.totalOf 1 =
      Processor.new.totalOf 1 := by
  constructor
  · exact (c9_withdraw_spec.1 { held := 0, total := 5, locked := false } 10).2.1
      rfl (by norm_num [Client.available])
  · exact c9_withdraw_spec.2 Processor.new 1 1 10
      (by norm_num [Processor.process_event, Processor.withdraw, Processor.new,
        Processor.check_transaction_does_not_exist,
        Processor.find_or_create_client, alookup, ainsert, Client.withdraw,
        Client.available, Client.new]) 1

end Challenge

namespace Challenge

/-- The change a successful dispute step applies to the owning client's held
amount. -/
def holdDelta (k : DisputeStepKind) (t : Transaction) : Amount :=
  match k with
  | .Dispute => t.signedAmount
  | .Resolve => -t.signedAmount
  | .Chargeback => -t.signedAmount

/-- C10: a locked account does not block dispute steps: when the transaction
lookup, ownership check and status transition succeed for a client whose
account is locked, the dispute/resolve/chargeback completes (no error) and
still mutates the locked client's held amount (and, for a chargeback, its
total), since hold and chargeback have no locked-account check. -/
theorem c10_locked_dispute_steps (p : Processor) (k : DisputeStepKind)
    (tid : TransactionID) (t : Transaction) (cl : Client)
    (ht : alookup p.transactions_by_id tid = some t)
    (hcl : alookup p.clients_by_id t.client_id = some cl)
    (_hlocked : cl.locked = true)
    (hv : t.validate_dispute_status_transition (targetStatus k) = .ok ()) :
    (p.process_event (.DisputeStep k tid t.client_id)).2 = none ∧
    (p.process_event (.DisputeStep k tid t.client_id)).1.heldOf t.client_id =
      cl.held + holdDelta k t ∧
    (k = .Chargeback →
      (p.process_event (.DisputeStep k tid t.client_id)).1.totalOf t.client_id =
        cl.total - t.signedAmount) := by
  have hsrc := validate_ok_inv hv
  have heq := dstep_success k ht hcl hsrc
  rw [heq]
  refine ⟨rfl, ?_, ?_⟩
  · cases k <;>
      simp [Processor.heldOf, alookup_ainsert_self, applyStep, Client.hold,
        Client.chargeback, holdDelta, sub_eq_add_neg]
  · intro hk
    subst hk
    simp [Processor.totalOf, alookup_ainsert_self, applyStep, Client.chargeback]

/-- A processor state holding one locked client who owns one undisputed
deposit of 40, used as a concrete witness input. -/
def lockedState : Processor :=
  { clients_by_id := [(1, { held := 0, total := 100, locked := true })],
    transactions_by_id :=
      [(1, { client_id := 1, amount := 40, kind := .Deposit,
             dispute_status := .None })] }

/-- Witness for C10: disputing a deposit owned by a locked client succeeds and
raises its held amount. -/
theorem c10_witness :
    (lockedState.process_event (.DisputeStep .Dispute 1 1)).2 = none ∧
    (lockedState.process_event (.DisputeStep .Dispute 1 1)).1.heldOf 1 =
      (0 : Amount) + holdDelta .Dispute
        { client_id := 1, amount := 40, kind := .Deposit,
          dispute_status := .None } :=
  have h := c10_locked_dispute_steps lockedState .Dispute 1
    { client_id := 1, amount := 40, kind := .Deposit, dispute_status := .None }
    { held := 0, total := 100, locked := true } rfl rfl rfl rfl
  ⟨h.1, h.2.1⟩

end Challenge

namespace Challenge

theorem hold_hold_cancel (cl : Client) (x : Amount) :
    (cl.hold x).hold (-x) = cl := by
  cases cl with
  | mk h t l =>
    simp only [Client.hold]
    have hx : h + x + -x = h := by ring
    rw [hx]

theorem tx_restatus_eq {t : Transaction} {s : DisputeStatus}
    (h : t.dispute_status = s) :
    ({ t with dispute_status := s } : Transaction) = t := by
  cases t with
  | mk c a k d =>
    have hd : d = s := h
    rw [hd]

/-- C7: for a transaction in the undisputed state (with its owner present),
Dispute then Resolve then Dispute all succeed, and the resolve exactly
reverses the dispute: the state after Dispute then Resolve equals the original
state, so the held value after the second dispute equals the held value after
the first. -/
theorem c7_dispute_resolve_dispute (p : Processor) (tid : TransactionID)
    (t : Transaction) (cl : Client)
    (ht : alookup p.transactions_by_id tid = some t)
    (hstat : t.dispute_status = DisputeStatus.None)
    (hcl : alookup p.clients_by_id t.client_id = some cl) :
    (p.process_event (.DisputeStep .Dispute tid t.client_id)).2 = none ∧
    ((p.process_event (.DisputeStep .Dispute tid t.client_id)).1.process_event
        (.DisputeStep .Resolve tid t.client_id)).2 = none ∧
    ((p.process_event (.DisputeStep .Dispute tid t.client_id)).1.process_event
        (.DisputeStep .Resolve tid t.client_id)).1 = p ∧
    (∀ c,
      (((p.process_event (.DisputeStep .Dispute tid t.client_id)).1.process_event
          (.DisputeStep .Resolve tid t.client_id)).1.process_event
            (.DisputeStep .Dispute tid t.client_id)).1.heldOf c =
        (p.process_event (.DisputeStep .Dispute tid t.client_id)).1.heldOf c) := by
  have heq1 := dstep_success .Dispute ht hcl hstat
  have ht1 : alookup (p.process_event
      (.DisputeStep .Dispute tid t.client_id)).1.transactions_by_id tid =
      some { t with dispute_status := .Pending } := by
    rw [heq1]
    exact alookup_ainsert_self _ _ _
  have hcl1 : alookup (p.process_event
      (.DisputeStep .Dispute tid t.client_id)).1.clients_by_id t.client_id =
      some (applyStep .Dispute cl t) := by
    rw [heq1]
    exact alookup_ainsert_self _ _ _
  have heq2 := dstep_success .Resolve ht1 hcl1 rfl
  rw [show ({ t with dispute_status := DisputeStatus.Pending } :
    Transaction).client_id = t.client_id from rfl] at heq2
  have hstate : ((p.process_event
      (.DisputeStep .Dispute tid t.client_id)).1.process_event
        (.DisputeStep .Resolve tid t.client_id)).1 = p := by
    rw [heq2, heq1]
    rw [ainsert_ainsert_same, ainsert_ainsert_same]
    have hW : applyStep .Resolve (applyStep .Dispute cl t)
        { t with dispute_status := DisputeStatus.Pending } = cl := by
      simp only [applyStep]
      exact hold_hold_cancel cl t.signedAmount
    have hV : ({ { t with dispute_status := DisputeStatus.Pending } with
        dispute_status := targetStatus DisputeStepKind.Resolve } : Transaction) = t :=
      tx_restatus_eq hstat
    rw [hW, hV]
    rw [ainsert_self_eq hcl, ainsert_self_eq ht]
  refine ⟨by rw [heq1], by rw [heq2], hstate, ?_⟩
  intro c
  rw [hstate]

/-- A processor state holding one unlocked client who owns one undisputed
deposit of 40, used as a concrete witness input. -/
def cleanState : Processor :=
  { clients_by_id := [(1, { held := 0, total := 100, locked := false })],
    transactions_by_id :=
      [(1, { client_id := 1, amount := 40, kind := .Deposit,
             dispute_status := .None })] }

/-- Witness for C7: dispute, resolve, dispute on a concrete undisputed
deposit, checking the held value of the owning client. -/
theorem c7_witness :
    ((cleanState.process_event (.DisputeStep .Dispute 1 1)).1.process_event
        (.DisputeStep .Resolve 1 1)).1 = cleanState ∧
    ((((cleanState.process_event (.DisputeStep .Dispute 1 1)).1.process_event
        (.DisputeStep .Resolve 1 1)).1.process_event
          (.DisputeStep .Dispute 1 1)).1.heldOf 1 =
      (cleanState.process_event (.DisputeStep .Dispute 1 1)).1.heldOf 1) :=
  have h := c7_dispute_resolve_dispute cleanState 1
    { client_id := 1, amount := 40, kind := .Deposit, dispute_status := .None }
    { held := 0, total := 100, locked := false } rfl rfl rfl
  ⟨h.2.2.1, h.2.2.2 1⟩

end Challenge

namespace Challenge

theorem find_or_create_spec (p : Processor) (cid : ClientID) {p1 : Processor}
    {cl : Client} (hfc : p.find_or_create_client cid = (p1, cl)) :
    (alookup p.clients_by_id cid = some cl ∧ p1 = p) ∨
    (alookup p.clients_by_id cid = none ∧ cl = Client.new ∧
      p1 = { p with clients_by_id := ainsert p.clients_by_id cid Client.new }) := by
  obtain ⟨cl2, hl, he⟩ | ⟨hl, he⟩ := find_or_create_cases p cid
  · injection hfc.symm.trans he with h1 h2
    exact Or.inl ⟨h2 ▸ hl, h1⟩
  · injection hfc.symm.trans he with h1 h2
    exact Or.inr ⟨hl, h2, h1⟩

theorem find_or_create_lockedOf {p : Processor} {cid : ClientID}
    {p1 : Processor} {cl : Client}
    (hfc : p.find_or_create_client cid = (p1, cl)) (c : ClientID) :
    p1.lockedOf c = p.lockedOf c := by
  rcases find_or_create_spec p cid hfc with ⟨hl, hp⟩ | ⟨hl, hcl2, hp⟩
  · rw [hp]
  · subst hp
    by_cases hc : c = cid
    · subst hc
      simp [Processor.lockedOf, alookup_ainsert_self, hl, Client.new]
    · have hne : cid ≠ c := fun hh => hc hh.symm
      simp [Processor.lockedOf, alookup_ainsert_ne _ hne]

/-- Once locked, a client stays locked across any further event. -/
theorem locked_permanent {p : Processor} {c : ClientID} (e : Event)
    (h : p.lockedOf c = true) : (p.process_event e).1.lockedOf c = true := by
  cases e with
  | Transaction k tid cid a =>
    have hsucc : ∀ (p1 : Processor) (cl : Client) (x : Client),
        p.find_or_create_client cid = (p1, cl) → cl.locked = false →
        x.locked = cl.locked →
        Processor.lockedOf
          { clients_by_id := ainsert p1.clients_by_id cid x,
            transactions_by_id := ainsert p1.transactions_by_id tid
              (Transaction.new cid a (if k = .Deposit then .Deposit else .Withdrawal)) } c
          = true := by
      intro p1 cl x hfc hlf hx
      by_cases hc : c = cid
      · subst hc
        exfalso
        rcases find_or_create_spec p c hfc with ⟨hlk, _⟩ | ⟨hlk, _, _⟩
        · simp only [Processor.lockedOf, hlk] at h
          rw [hlf] at h
          exact Bool.noConfusion h
        · simp only [Processor.lockedOf, hlk] at h
          exact Bool.noConfusion h
      · have hne : cid ≠ c := fun hh => hc hh.symm
        have hp1 : p1.lockedOf c = true := by
          rw [find_or_create_lockedOf hfc]
          exact h
        simp only [Processor.lockedOf] at hp1 ⊢
        rw [alookup_ainsert_ne _ hne]
        exact hp1
    cases k
    · rcases deposit_cases p tid cid a with ⟨_, heq⟩ | ⟨p1, cl, htx, hfc, hbr⟩
      · rw [process_event_deposit, heq]; exact h
      · rcases hbr with ⟨hl, heq⟩ | ⟨hl, heq⟩
        · rw [process_event_deposit, heq]
          rw [find_or_create_lockedOf hfc]
          exact h
        · rw [process_event_deposit, heq]
          exact hsucc p1 cl _ hfc hl rfl
    · rcases withdraw_cases p tid cid a with ⟨_, heq⟩ | ⟨p1, cl, htx, hfc, hbr⟩
      · rw [process_event_withdrawal, heq]; exact h
      · rcases hbr with ⟨hl, heq⟩ | ⟨hl, _, heq⟩ | ⟨hl, _, heq⟩
        · rw [process_event_withdrawal, heq]
          rw [find_or_create_lockedOf hfc]
          exact h
        · rw [process_event_withdrawal, heq]
          rw [find_or_create_lockedOf hfc]
          exact h
        · rw [process_event_withdrawal, heq]
          exact hsucc p1 cl _ hfc hl rfl
  | DisputeStep k tid cid =>
    rcases dstep_cases p k tid cid with ⟨_, heq⟩ | ⟨t, ht, hbr⟩
    · rw [heq]; exact h
    · rcases hbr with ⟨_, heq⟩ | ⟨cl, hcl, hbr⟩
      · rw [heq]; exact h
      · rcases hbr with ⟨_, heq⟩ | ⟨hcid, hbr⟩
        · rw [heq]; exact h
        · rcases hbr with ⟨e2, _, heq⟩ | ⟨hsrc, heq⟩
          · rw [heq]; exact h
          · rw [heq]
            by_cases hc : c = t.client_id
            · subst hc
              simp only [Processor.lockedOf, hcl] at h
              cases k <;>
                simp [Processor.lockedOf, alookup_ainsert_self, applyStep,
                  Client.hold, Client.chargeback, h]
            · have hne : t.client_id ≠ c := fun hh => hc hh.symm
              simp only [Processor.lockedOf] at h ⊢
              rw [alookup_ainsert_ne _ hne]
              exact h

end Challenge

namespace Challenge

/-- C8 counterexample: after a chargeback locks client 1, a deposit event
reusing an existing transaction id fails with the duplicate-transaction error,
not with the locked-account error — so not every subsequent deposit fails
*with AccountLocked*. -/
theorem c8_counterexample :
    (run [.Transaction .Deposit 1 1 100, .DisputeStep .Dispute 1 1,
        .DisputeStep .Chargeback 1 1]).lockedOf 1 = true ∧
    ((run [.Transaction .Deposit 1 1 100, .DisputeStep .Dispute 1 1,
        .DisputeStep .Chargeback 1 1]).process_event
          (.Transaction .Deposit 1 1 50)).2 = some (.transactionExists 1) ∧
    PErr.transactionExists 1 ≠ PErr.cannotDepositLocked := by
  refine ⟨?_, ?_, by decide⟩ <;>
  norm_num [run, processEvents, Processor.process_event, Processor.deposit,
    Processor.dispute, Processor.chargeback, Processor.new,
    Processor.check_transaction_does_not_exist, Processor.find_or_create_client,
    Processor.get_transaction_and_client, Processor.check_client_owns_transaction,
    Transaction.validate_dispute_status_transition, Transaction.new,
    Transaction.signedAmount, alookup, ainsert, Client.deposit, Client.hold,
    Client.chargeback, Client.new, Processor.lockedOf]

/-- C8 (amended): charging back a disputed transaction sets the owning
client's held and total down by the signed amount and locks the account; the
lock is permanent for the rest of the run, and every subsequent
deposit/withdrawal event for that client fails — with the locked-account
error when its transaction id is fresh (a reused id fails earlier with the
duplicate-transaction error). -/
theorem c8_chargeback_locks :
    (∀ (p : Processor) (tid : TransactionID) (t : Transaction) (cl : Client),
      alookup p.transactions_by_id tid = some t →
      t.dispute_status = .Pending →
      alookup p.clients_by_id t.client_id = some cl →
      p.process_event (.DisputeStep .Chargeback tid t.client_id) =
        ({ clients_by_id := ainsert p.clients_by_id t.client_id
             { held := cl.held - t.signedAmount,
               total := cl.total - t.signedAmount, locked := true },
           transactions_by_id := ainsert p.transactions_by_id tid
             { t with dispute_status := .ChargedBack } }, none)) ∧
    (∀ (p : Processor) (c : ClientID) (e : Event),
      p.lockedOf c = true → (p.process_event e).1.lockedOf c = true) ∧
    (∀ (p : Processor) (tid : TransactionID) (cid : ClientID) (a : Amount)
        (k : TransactionKind) (cl : Client),
      alookup p.clients_by_id cid = some cl → cl.locked = true →
      (p.process_event (.Transaction k tid cid a)).2.isSome ∧
      (alookup p.transactions_by_id tid = none →
        p.process_event (.Transaction k tid cid a) =
          (p, some (match k with
            | TransactionKind.Deposit => PErr.cannotDepositLocked
            | TransactionKind.Withdrawal => PErr.cannotWithdrawLocked)))) := by
  refine ⟨?_, ?_, ?_⟩
  · intro p tid t cl ht hstat hcl
    exact chargeback_success ht hcl hstat
  · intro p c e h
    exact locked_permanent e h
  · intro p tid cid a k cl hcl hlk
    have hfc := find_or_create_of_some hcl
    cases k
    · constructor
      · cases htx : alookup p.transactions_by_id tid with
        | some t =>
          rw [process_event_deposit, deposit_of_dup (by simp [htx]) cid a]
          rfl
        | none =>
          rw [process_event_deposit, deposit_of_locked htx hfc hlk a]
          rfl
      · intro htx
        rw [process_event_deposit, deposit_of_locked htx hfc hlk a]
    · constructor
      · cases htx : alookup p.transactions_by_id tid with
        | some t =>
          rw [process_event_withdrawal, withdraw_of_dup (by simp [htx]) cid a]
          rfl
        | none =>
          rw [process_event_withdrawal, withdraw_of_locked htx hfc hlk a]
          rfl
      · intro htx
        rw [process_event_withdrawal, withdraw_of_locked htx hfc hlk a]

/-- A processor state holding one unlocked client with held 40 who owns one
disputed deposit of 40, used as a concrete witness input. -/
def pendingState : Processor :=
  { clients_by_id := [(1, { held := 40, total := 100, locked := false })],
    transactions_by_id :=
      [(1, { client_id := 1, amount := 40, kind := .Deposit,
             dispute_status := .Pending })] }

/-- Witness for C8: a concrete chargeback effect, lock permanence across one
more event, and a fresh-id deposit to a locked client failing with the
locked-account error. -/
theorem c8_witness :
    pendingState.process_event (.DisputeStep .Chargeback 1 1) =
      ({ clients_by_id := ainsert pendingState.clients_by_id 1
           { held := (40 : Amount) - Transaction.signedAmount
               { client_id := 1, amount := 40, kind := .Deposit,
                 dispute_status := .Pending },
             total := (100 : Amount) - Transaction.signedAmount
               { client_id := 1, amount := 40, kind := .Deposit,
                 dispute_status := .Pending },
             locked := true },
         transactions_by_id := ainsert pendingState.transactions_by_id 1
           { client_id := 1, amount := 40, kind := .Deposit,
             dispute_status := .ChargedBack } }, none) ∧
    (cbState.process_event (.Transaction .Deposit 2 1 50)).1.lockedOf 1 = true ∧
    cbState.process_event (.Transaction .Deposit 2 1 50) =
      (cbState, some .cannotDepositLocked) :=
  ⟨c8_chargeback_locks.1 pendingState 1
     { client_id := 1, amount := 40, kind := .Deposit, dispute_status := .Pending }
     { held := 40, total := 100, locked := false } rfl rfl rfl,
   c8_chargeback_locks.2.1 cbState 1 (.Transaction .Deposit 2 1 50) rfl,
   (c8_chargeback_locks.2.2 cbState 2 1 50 .Deposit
     { held := 0, total := 0, locked := true } rfl rfl).2 rfl⟩

end Challenge

namespace Challenge

theorem alookup_mem {α : Type} {l : List (Nat × α)} {k : Nat} {v : α}
    (h : alookup l k = some v) : (k, v) ∈ l := by
  induction l with
  | nil => exact Option.noConfusion h
  | cons q rest ih =>
    obtain ⟨k0, w⟩ := q
    by_cases hk : k0 = k
    · subst hk
      have hwv : w = v := by simpa [alookup] using h
      subst hwv
      exact List.mem_cons_self _ _
    · simp only [alookup, if_neg hk] at h
      exact List.mem_cons_of_mem _ (ih h)

theorem find_or_create_txs_eq {p p1 : Processor} {cid : ClientID} {cl : Client}
    (hfc : p.find_or_create_client cid = (p1, cl)) :
    p1.transactions_by_id = p.transactions_by_id := by
  have hh := find_or_create_fst_txs p cid
  rw [hfc] at hh
  exact hh

theorem find_or_create_lookup_self {p p1 : Processor} {cid : ClientID}
    {cl : Client} (hfc : p.find_or_create_client cid = (p1, cl)) :
    alookup p1.clients_by_id cid = some cl := by
  rcases find_or_create_spec p cid hfc with ⟨hl, hp⟩ | ⟨hl, hcl2, hp⟩
  · rw [hp]; exact hl
  · subst hp
    subst hcl2
    exact alookup_ainsert_self _ _ _

theorem find_or_create_totalOf {p p1 : Processor} {cid : ClientID} {cl : Client}
    (hfc : p.find_or_create_client cid = (p1, cl)) (c : ClientID) :
    p1.totalOf c = p.totalOf c := by
  rcases find_or_create_spec p cid hfc with ⟨hl, hp⟩ | ⟨hl, hcl2, hp⟩
  · rw [hp]
  · subst hp
    by_cases hc : c = cid
    · subst hc
      simp [Processor.totalOf, alookup_ainsert_self, hl, Client.new]
    · have hne : cid ≠ c := fun hh => hc hh.symm
      simp [Processor.totalOf, alookup_ainsert_ne _ hne]

theorem find_or_create_heldOf {p p1 : Processor} {cid : ClientID} {cl : Client}
    (hfc : p.find_or_create_client cid = (p1, cl)) (c : ClientID) :
    p1.heldOf c = p.heldOf c := by
  rcases find_or_create_spec p cid hfc with ⟨hl, hp⟩ | ⟨hl, hcl2, hp⟩
  · rw [hp]
  · subst hp
    by_cases hc : c = cid
    · subst hc
      simp [Processor.heldOf, alookup_ainsert_self, hl, Client.new]
    · have hne : cid ≠ c := fun hh => hc hh.symm
      simp [Processor.heldOf, alookup_ainsert_ne _ hne]

theorem find_or_create_snd_totalOf {p p1 : Processor} {cid : ClientID}
    {cl : Client} (hfc : p.find_or_create_client cid = (p1, cl)) :
    p.totalOf cid = cl.total := by
  rcases find_or_create_spec p cid hfc with ⟨hl, _⟩ | ⟨hl, hcl2, _⟩
  · simp [Processor.totalOf, hl]
  · subst hcl2
    simp [Processor.totalOf, hl, Client.new]

theorem find_or_create_snd_heldOf {p p1 : Processor} {cid : ClientID}
    {cl : Client} (hfc : p.find_or_create_client cid = (p1, cl)) :
    p.heldOf cid = cl.held := by
  rcases find_or_create_spec p cid hfc with ⟨hl, _⟩ | ⟨hl, hcl2, _⟩
  · simp [Processor.heldOf, hl]
  · subst hcl2
    simp [Processor.heldOf, hl, Client.new]

/-! ### Accounting definitions (spec side) for C4 -/

/-- Sum of the amounts of client `c`'s accepted deposit events in a trace. -/
def depositTotal (c : ClientID) : List (Event × Option PErr) → Amount
  | [] => 0
  | (Event.Transaction .Deposit _ cid a, none) :: rest =>
      (if cid = c then a else 0) + depositTotal c rest
  | _ :: rest => depositTotal c rest

/-- Sum of the amounts of client `c`'s accepted withdrawal events in a trace. -/
def withdrawalTotal (c : ClientID) : List (Event × Option PErr) → Amount
  | [] => 0
  | (Event.Transaction .Withdrawal _ cid a, none) :: rest =>
      (if cid = c then a else 0) + withdrawalTotal c rest
  | _ :: rest => withdrawalTotal c rest

/-- The net effect of one trace entry on client `c`'s total: `+amount` for an
accepted deposit, `-amount` for an accepted withdrawal, `0` otherwise. -/
def acceptedDelta (c : ClientID) : Event × Option PErr → Amount
  | (Event.Transaction .Deposit _ cid a, none) => if cid = c then a else 0
  | (Event.Transaction .Withdrawal _ cid a, none) => if cid = c then -a else 0
  | _ => 0

/-- Sum of `acceptedDelta` over a trace. -/
def netAccepted (c : ClientID) : List (Event × Option PErr) → Amount
  | [] => 0
  | x :: rest => acceptedDelta c x + netAccepted c rest

/-- Sum of the *signed* amounts of client `c`'s charged-back transactions in
the final map (amount for a deposit, minus the amount for a withdrawal,
matching the sign the processor applies at chargeback time). -/
def chargedBackSigned (p : Processor) (c : ClientID) : Amount :=
  sumBy p.transactions_by_id fun _ t =>
    if t.client_id = c ∧ t.dispute_status = .ChargedBack then t.signedAmount
    else 0

/-- Sum of the (unsigned) amounts of client `c`'s charged-back transactions in
the final map, following the claim's words. -/
def chargedBackAmounts (p : Processor) (c : ClientID) : Amount :=
  sumBy p.transactions_by_id fun _ t =>
    if t.client_id = c ∧ t.dispute_status = .ChargedBack then t.amount else 0

theorem netAccepted_eq (c : ClientID) (tr : List (Event × Option PErr)) :
    netAccepted c tr = depositTotal c tr - withdrawalTotal c tr := by
  induction tr with
  | nil => simp [netAccepted, depositTotal, withdrawalTotal]
  | cons x rest ih =>
    obtain ⟨e, r⟩ := x
    cases e with
    | Transaction k tid cid a =>
      by_cases hc : cid = c <;>
        cases k <;> cases r <;>
        simp [netAccepted, depositTotal, withdrawalTotal, acceptedDelta, ih, hc] <;>
        ring
    | DisputeStep k tid cid =>
      cases r <;>
        simp [netAccepted, depositTotal, withdrawalTotal, acceptedDelta, ih]

end Challenge

namespace Challenge

theorem totalOf_of_lookup {p : Processor} {c : ClientID} {cl : Client}
    (h : alookup p.clients_by_id c = some cl) : p.totalOf c = cl.total := by
  simp [Processor.totalOf, h]

theorem heldOf_of_lookup {p : Processor} {c : ClientID} {cl : Client}
    (h : alookup p.clients_by_id c = some cl) : p.heldOf c = cl.held := by
  simp [Processor.heldOf, h]

/-- One step of the accounting argument for C4: each event changes
`totalOf c + chargedBackSigned c` by exactly the net accepted
deposit/withdrawal amount of the event. -/
theorem step_total_cb (p : Processor) (e : Event) (c : ClientID) :
    (p.process_event e).1.totalOf c + chargedBackSigned (p.process_event e).1 c =
      p.totalOf c + chargedBackSigned p c +
        acceptedDelta c (e, (p.process_event e).2) := by
  cases e with
  | Transaction k tid cid a =>
    cases k
    · rcases deposit_cases p tid cid a with ⟨_, heq⟩ | ⟨p1, cl, htx, hfc, hbr⟩
      · rw [process_event_deposit, heq]
        simp [acceptedDelta]
      · have htx1 : alookup p1.transactions_by_id tid = none := by
          rw [find_or_create_txs_eq hfc]; exact htx
        rcases hbr with ⟨hl, heq⟩ | ⟨hl, heq⟩
        · rw [process_event_deposit, heq]
          rw [find_or_create_totalOf hfc c]
          have hcb : chargedBackSigned p1 c = chargedBackSigned p c := by
            unfold chargedBackSigned
            rw [find_or_create_txs_eq hfc]
          rw [hcb]
          simp [acceptedDelta]
        · rw [process_event_deposit, heq]
          have hcbS : chargedBackSigned
              { clients_by_id :=
                  ainsert p1.clients_by_id cid { cl with total := cl.total + a },
                transactions_by_id := ainsert p1.transactions_by_id tid
                  (Transaction.new cid a .Deposit) } c =
              chargedBackSigned p c := by
            unfold chargedBackSigned
            rw [sumBy_ainsert_none htx1, find_or_create_txs_eq hfc]
            simp [Transaction.new]
          rw [hcbS]
          by_cases hc : c = cid
          · subst hc
            have h1 : Processor.totalOf
                { clients_by_id :=
                    ainsert p1.clients_by_id c { cl with total := cl.total + a },
                  transactions_by_id := ainsert p1.transactions_by_id tid
                    (Transaction.new c a .Deposit) } c = cl.total + a :=
              totalOf_of_lookup (alookup_ainsert_self _ _ _)
            rw [h1, find_or_create_snd_totalOf hfc]
            simp [acceptedDelta]
            ring
          · have hne : cid ≠ c := fun hh => hc hh.symm
            have h1 : Processor.totalOf
                { clients_by_id :=
                    ainsert p1.clients_by_id cid { cl with total := cl.total + a },
                  transactions_by_id := ainsert p1.transactions_by_id tid
                    (Transaction.new cid a .Deposit) } c = p1.totalOf c := by
              simp [Processor.totalOf, alookup_ainsert_ne _ hne]
            rw [h1, find_or_create_totalOf hfc c]
            simp [acceptedDelta, hne]
    · rcases withdraw_cases p tid cid a with ⟨_, heq⟩ | ⟨p1, cl, htx, hfc, hbr⟩
      · rw [process_event_withdrawal, heq]
        simp [acceptedDelta]
      · have htx1 : alookup p1.transactions_by_id tid = none := by
          rw [find_or_create_txs_eq hfc]; exact htx
        have hcb1 : chargedBackSigned p1 c = chargedBackSigned p c := by
          unfold chargedBackSigned
          rw [find_or_create_txs_eq hfc]
        rcases hbr with ⟨hl, heq⟩ | ⟨hl, _, heq⟩ | ⟨hl, _, heq⟩
        · rw [process_event_withdrawal, heq]
          rw [find_or_create_totalOf hfc c, hcb1]
          simp [acceptedDelta]
        · rw [process_event_withdrawal, heq]
          rw [find_or_create_totalOf hfc c, hcb1]
          simp [acceptedDelta]
        · rw [process_event_withdrawal, heq]
          have hcbS : chargedBackSigned
              { clients_by_id :=
                  ainsert p1.clients_by_id cid { cl with total := cl.total - a },
                transactions_by_id := ainsert p1.transactions_by_id tid
                  (Transaction.new cid a .Withdrawal) } c =
              chargedBackSigned p c := by
            unfold chargedBackSigned
            rw [sumBy_ainsert_none htx1, find_or_create_txs_eq hfc]
            simp [Transaction.new]
          rw [hcbS]
          by_cases hc : c = cid
          · subst hc
            have h1 : Processor.totalOf
                { clients_by_id :=
                    ainsert p1.clients_by_id c { cl with total := cl.total - a },
                  transactions_by_id := ainsert p1.transactions_by_id tid
                    (Transaction.new c a .Withdrawal) } c = cl.total - a :=
              totalOf_of_lookup (alookup_ainsert_self _ _ _)
            rw [h1, find_or_create_snd_totalOf hfc]
            simp [acceptedDelta]
            ring
          · have hne : cid ≠ c := fun hh => hc hh.symm
            have h1 : Processor.totalOf
                { clients_by_id :=
                    ainsert p1.clients_by_id cid { cl with total := cl.total - a },
                  transactions_by_id := ainsert p1.transactions_by_id tid
                    (Transaction.new cid a .Withdrawal) } c = p1.totalOf c := by
              simp [Processor.totalOf, alookup_ainsert_ne _ hne]
            rw [h1, find_or_create_totalOf hfc c]
            simp [acceptedDelta, hne]
  | DisputeStep k tid cid =>
    rcases dstep_cases p k tid cid with ⟨_, heq⟩ | ⟨t, ht, hbr⟩
    · rw [heq]; simp [acceptedDelta]
    · rcases hbr with ⟨_, heq⟩ | ⟨cl, hcl, hbr⟩
      · rw [heq]; simp [acceptedDelta]
      · rcases hbr with ⟨_, heq⟩ | ⟨hcid, hbr⟩
        · rw [heq]; simp [acceptedDelta]
        · rcases hbr with ⟨e2, _, heq⟩ | ⟨hsrc, heq⟩
          · rw [heq]; simp [acceptedDelta]
          · rw [heq]
            subst hcid
            have hdelta : acceptedDelta c
                (Event.DisputeStep k tid t.client_id, none) = 0 := by
              cases k <;> rfl
            rw [hdelta]
            have hsum : chargedBackSigned
                { clients_by_id :=
                    ainsert p.clients_by_id t.client_id (applyStep k cl t),
                  transactions_by_id := ainsert p.transactions_by_id tid
                    { t with dispute_status := targetStatus k } } c =
                chargedBackSigned p c -
                  (if t.client_id = c ∧ t.dispute_status = .ChargedBack
                    then t.signedAmount else 0) +
                  (if t.client_id = c ∧ targetStatus k = .ChargedBack
                    then t.signedAmount else 0) := by
              unfold chargedBackSigned
              rw [sumBy_ainsert_some ht]
              rfl
            rw [hsum]
            have hnotcb : (if t.client_id = c ∧ t.dispute_status = .ChargedBack
                then t.signedAmount else 0) = 0 := by
              cases k <;> rw [hsrc] <;> simp [sourceStatus]
            rw [hnotcb]
            by_cases hc : t.client_id = c
            · subst hc
              have htot : Processor.totalOf
                  { clients_by_id :=
                      ainsert p.clients_by_id t.client_id (applyStep k cl t),
                    transactions_by_id := ainsert p.transactions_by_id tid
                      { t with dispute_status := targetStatus k } } t.client_id =
                  (applyStep k cl t).total :=
                totalOf_of_lookup (alookup_ainsert_self _ _ _)
              rw [htot, totalOf_of_lookup hcl]
              cases k <;>
                simp [applyStep, Client.hold, Client.chargeback, targetStatus]
            · have hne : t.client_id ≠ c := hc
              have htot : Processor.totalOf
                  { clients_by_id :=
                      ainsert p.clients_by_id t.client_id (applyStep k cl t),
                    transactions_by_id := ainsert p.transactions_by_id tid
                      { t with dispute_status := targetStatus k } } c =
                  p.totalOf c := by
                simp [Processor.totalOf, alookup_ainsert_ne _ hne]
              rw [htot]
              simp [hne]

end Challenge

namespace Challenge

theorem processEvents_total_cb (c : ClientID) :
    ∀ (es : List Event) (p : Processor),
      (processEvents p es).totalOf c +
          chargedBackSigned (processEvents p es) c =
        p.totalOf c + chargedBackSigned p c + netAccepted c (traceFrom p es) := by
  intro es
  induction es with
  | nil =>
    intro p
    simp [processEvents, traceFrom, netAccepted]
  | cons e rest ih =>
    intro p
    have hstep := step_total_cb p e c
    have hrest := ih (p.process_event e).1
    simp only [processEvents, traceFrom, netAccepted]
    rw [hrest, hstep]
    ring

/-- C4 counterexample: deposit 100, withdraw 20, dispute and charge back the
withdrawal. The final total is 100, but the claim's formula
(deposits − withdrawals − charged-back amounts) gives 100 − 20 − 20 = 60:
charging back a *withdrawal* adds its amount back instead of subtracting it. -/
theorem c4_counterexample :
    (run [.Transaction .Deposit 1 1 100, .Transaction .Withdrawal 2 1 20,
        .DisputeStep .Dispute 2 1, .DisputeStep .Chargeback 2 1]).totalOf 1 =
      100 ∧
    depositTotal 1 (trace [.Transaction .Deposit 1 1 100,
        .Transaction .Withdrawal 2 1 20, .DisputeStep .Dispute 2 1,
        .DisputeStep .Chargeback 2 1]) = 100 ∧
    withdrawalTotal 1 (trace [.Transaction .Deposit 1 1 100,
        .Transaction .Withdrawal 2 1 20, .DisputeStep .Dispute 2 1,
        .DisputeStep .Chargeback 2 1]) = 20 ∧
    chargedBackAmounts (run [.Transaction .Deposit 1 1 100,
        .Transaction .Withdrawal 2 1 20, .DisputeStep .Dispute 2 1,
        .DisputeStep .Chargeback 2 1]) 1 = 20 ∧
    (100 : Amount) ≠ 100 - 20 - 20 := by
  refine ⟨?_, ?_, ?_, ?_, by norm_num⟩ <;>
    norm_num [run, trace, traceFrom, processEvents, Processor.process_event,
      Processor.deposit, Processor.withdraw, Processor.dispute,
      Processor.chargeback, Processor.new,
      Processor.check_transaction_does_not_exist,
      Processor.find_or_create_client, Processor.get_transaction_and_client,
      Processor.check_client_owns_transaction,
      Transaction.validate_dispute_status_transition, Transaction.new,
      Transaction.signedAmount, alookup, ainsert, Client.deposit,
      Client.withdraw, Client.available, Client.hold, Client.chargeback,
      Client.new, Processor.totalOf, depositTotal, withdrawalTotal,
      chargedBackAmounts, sumBy]
  decide

/-- C4 (amended): every client's final total equals the sum of its accepted
deposit amounts, minus its accepted withdrawal amounts, minus the *signed*
amounts of its charged-back transactions (the amount for a charged-back
deposit, minus the amount for a charged-back withdrawal, which the chargeback
adds back to the total). -/
theorem c4_total_accounting (es : List Event) (c : ClientID) :
    (run es).totalOf c =
      depositTotal c (trace es) - withdrawalTotal c (trace es) -
        chargedBackSigned (run es) c := by
  have h := processEvents_total_cb c es Processor.new
  rw [netAccepted_eq] at h
  have h0t : Processor.new.totalOf c = 0 := by
    simp [Processor.totalOf, Processor.new, alookup]
  have h0c : chargedBackSigned Processor.new c = 0 := by
    simp [chargedBackSigned, Processor.new, sumBy]
  rw [h0t, h0c] at h
  have hrun : run es = processEvents Processor.new es := rfl
  have htr : trace es = traceFrom Processor.new es := rfl
  rw [hrun, htr]
  linarith [h]

end Challenge

namespace Challenge

/-! ### Held-amount invariant for C6 -/

/-- All deposit/withdrawal events in the list carry nonnegative amounts. -/
def amountsNonneg (es : List Event) : Bool :=
  es.all fun e =>
    match e with
    | .Transaction _ _ _ a => decide (0 ≤ a)
    | _ => true

/-- No dispute event of the run targets a withdrawal transaction (evaluated
against the state at which each event is processed). -/
def noWithdrawalDisputes (p : Processor) : List Event → Bool
  | [] => true
  | e :: rest =>
      (match e with
       | .DisputeStep .Dispute tid _ =>
         (match alookup p.transactions_by_id tid with
          | some t => decide (t.kind ≠ .Withdrawal)
          | none => true)
       | _ => true) && noWithdrawalDisputes (p.process_event e).1 rest

/-- Sum of the amounts of client `c`'s currently disputed transactions. -/
def pendingSum (p : Processor) (c : ClientID) : Amount :=
  sumBy p.transactions_by_id fun _ t =>
    if t.client_id = c ∧ t.dispute_status = .Pending then t.amount else 0

/-- Invariant maintained by runs with nonnegative amounts and no withdrawal
disputes: all stored amounts are nonnegative, every pending transaction is a
deposit, and every client's held amount equals the sum of its pending
amounts. -/
def HeldInv (p : Processor) : Prop :=
  (∀ q ∈ p.transactions_by_id, 0 ≤ (q.2 : Transaction).amount) ∧
  (∀ q ∈ p.transactions_by_id,
    (q.2 : Transaction).dispute_status = .Pending → (q.2 : Transaction).kind = .Deposit) ∧
  (∀ c, p.heldOf c = pendingSum p c)

theorem heldInv_step (p : Processor) (e : Event) (hinv : HeldInv p)
    (hamt : ∀ k tid cid a, e = .Transaction k tid cid a → 0 ≤ a)
    (hdisp : ∀ tid cid, e = .DisputeStep .Dispute tid cid →
      ∀ t, alookup p.transactions_by_id tid = some t → t.kind ≠ .Withdrawal) :
    HeldInv (p.process_event e).1 := by
  obtain ⟨hinv1, hinv2, hinv3⟩ := hinv
  cases e with
  | Transaction k tid cid a =>
    have ha : 0 ≤ a := hamt k tid cid a rfl
    have herr : ∀ p1 cl, p.find_or_create_client cid = (p1, cl) →
        HeldInv p1 := by
      intro p1 cl hfc
      refine ⟨?_, ?_, ?_⟩
      · rw [find_or_create_txs_eq hfc]; exact hinv1
      · rw [find_or_create_txs_eq hfc]; exact hinv2
      · intro c
        rw [find_or_create_heldOf hfc c]
        unfold pendingSum
        rw [find_or_create_txs_eq hfc]
        exact hinv3 c
    have hsucc : ∀ (p1 : Processor) (cl : Client) (x : Client) (knd : TransactionKind),
        alookup p.transactions_by_id tid = none →
        p.find_or_create_client cid = (p1, cl) → x.held = cl.held →
        HeldInv
          { clients_by_id := ainsert p1.clients_by_id cid x,
            transactions_by_id :=
              ainsert p1.transactions_by_id tid (Transaction.new cid a knd) } := by
      intro p1 cl x knd htx hfc hx
      have htx1 : alookup p1.transactions_by_id tid = none := by
        rw [find_or_create_txs_eq hfc]; exact htx
      refine ⟨?_, ?_, ?_⟩
      · intro q hq
        rcases mem_ainsert hq with hq1 | hq2
        · subst hq1
          simpa [Transaction.new] using ha
        · rw [find_or_create_txs_eq hfc] at hq2
          exact hinv1 q hq2
      · intro q hq
        rcases mem_ainsert hq with hq1 | hq2
        · subst hq1
          intro hpend
          exact absurd hpend (by simp [Transaction.new])
        · rw [find_or_create_txs_eq hfc] at hq2
          exact hinv2 q hq2
      · intro c
        have hps : pendingSum
            { clients_by_id := ainsert p1.clients_by_id cid x,
              transactions_by_id := ainsert p1.transactions_by_id tid
                (Transaction.new cid a knd) } c = pendingSum p c := by
          unfold pendingSum
          rw [sumBy_ainsert_none htx1, find_or_create_txs_eq hfc]
          simp [Transaction.new]
        rw [hps]
        by_cases hc : c = cid
        · subst hc
          have hh : Processor.heldOf
              { clients_by_id := ainsert p1.clients_by_id c x,
                transactions_by_id := ainsert p1.transactions_by_id tid
                  (Transaction.new c a knd) } c = x.held :=
            heldOf_of_lookup (alookup_ainsert_self _ _ _)
          rw [hh, hx, ← find_or_create_snd_heldOf hfc]
          exact hinv3 c
        · have hne : cid ≠ c := fun hh => hc hh.symm
          have hh : Processor.heldOf
              { clients_by_id := ainsert p1.clients_by_id cid x,
                transactions_by_id := ainsert p1.transactions_by_id tid
                  (Transaction.new cid a knd) } c = p1.heldOf c := by
            simp [Processor.heldOf, alookup_ainsert_ne _ hne]
          rw [hh, find_or_create_heldOf hfc c]
          exact hinv3 c
    cases k
    · rcases deposit_cases p tid cid a with ⟨_, heq⟩ | ⟨p1, cl, htx, hfc, hbr⟩
      · rw [process_event_deposit, heq]
        exact ⟨hinv1, hinv2, hinv3⟩
      · rcases hbr with ⟨hl, heq⟩ | ⟨hl, heq⟩
        · rw [process_event_deposit, heq]
          exact herr p1 cl hfc
        · rw [process_event_deposit, heq]
          exact hsucc p1 cl _ .Deposit htx hfc rfl
    · rcases withdraw_cases p tid cid a with ⟨_, heq⟩ | ⟨p1, cl, htx, hfc, hbr⟩
      · rw [process_event_withdrawal, heq]
        exact ⟨hinv1, hinv2, hinv3⟩
      · rcases hbr with ⟨hl, heq⟩ | ⟨hl, _, heq⟩ | ⟨hl, _, heq⟩
        · rw [process_event_withdrawal, heq]
          exact herr p1 cl hfc
        · rw [process_event_withdrawal, heq]
          exact herr p1 cl hfc
        · rw [process_event_withdrawal, heq]
          exact hsucc p1 cl _ .Withdrawal htx hfc rfl
  | DisputeStep k tid cid =>
    rcases dstep_cases p k tid cid with ⟨_, heq⟩ | ⟨t, ht, hbr⟩
    · rw [heq]; exact ⟨hinv1, hinv2, hinv3⟩
    · rcases hbr with ⟨_, heq⟩ | ⟨cl, hcl, hbr⟩
      · rw [heq]; exact ⟨hinv1, hinv2, hinv3⟩
      · rcases hbr with ⟨_, heq⟩ | ⟨hcid, hbr⟩
        · rw [heq]; exact ⟨hinv1, hinv2, hinv3⟩
        · rcases hbr with ⟨e2, _, heq⟩ | ⟨hsrc, heq⟩
          · rw [heq]; exact ⟨hinv1, hinv2, hinv3⟩
          · subst hcid
            have hkindD : t.kind = .Deposit := by
              cases k with
              | Dispute =>
                have hnw := hdisp tid t.client_id rfl t ht
                cases hkk : t.kind with
                | Deposit => rfl
                | Withdrawal => exact absurd hkk hnw
              | Resolve =>
                exact hinv2 (tid, t) (alookup_mem ht) hsrc
              | Chargeback =>
                exact hinv2 (tid, t) (alookup_mem ht) hsrc
            rw [heq]
            have hamt0 : 0 ≤ t.amount := hinv1 (tid, t) (alookup_mem ht)
            refine ⟨?_, ?_, ?_⟩
            · intro q hq
              rcases mem_ainsert hq with hq1 | hq2
              · subst hq1
                exact hamt0
              · exact hinv1 q hq2
            · intro q hq
              rcases mem_ainsert hq with hq1 | hq2
              · subst hq1
                intro _
                exact hkindD
              · exact hinv2 q hq2
            · intro c
              have hsum : pendingSum
                  { clients_by_id :=
                      ainsert p.clients_by_id t.client_id (applyStep k cl t),
                    transactions_by_id := ainsert p.transactions_by_id tid
                      { t with dispute_status := targetStatus k } } c =
                  pendingSum p c -
                    (if t.client_id = c ∧ t.dispute_status = .Pending
                      then t.amount else 0) +
                    (if t.client_id = c ∧ targetStatus k = .Pending
                      then t.amount else 0) := by
                unfold pendingSum
                rw [sumBy_ainsert_some ht]
              rw [hsum]
              by_cases hc : t.client_id = c
              · subst hc
                have hh : Processor.heldOf
                    { clients_by_id :=
                        ainsert p.clients_by_id t.client_id (applyStep k cl t),
                      transactions_by_id := ainsert p.transactions_by_id tid
                        { t with dispute_status := targetStatus k } } t.client_id =
                    (applyStep k cl t).held :=
                  heldOf_of_lookup (alookup_ainsert_self _ _ _)
                have hclh : cl.held = pendingSum p t.client_id := by
                  rw [← heldOf_of_lookup hcl]
                  exact hinv3 t.client_id
                rw [hh]
                cases k with
                | Dispute =>
                  simp only [applyStep, Client.hold, Transaction.signedAmount,
                    hkindD, targetStatus]
                  rw [hclh, hsrc]
                  simp [sourceStatus]
                | Resolve =>
                  simp only [applyStep, Client.hold, Transaction.signedAmount,
                    hkindD, targetStatus]
                  rw [hclh, hsrc]
                  simp [sourceStatus]
                  ring
                | Chargeback =>
                  simp only [applyStep, Client.chargeback,
                    Transaction.signedAmount, hkindD, targetStatus]
                  rw [hclh, hsrc]
                  simp [sourceStatus]
              · have hne : t.client_id ≠ c := hc
                have hh : Processor.heldOf
                    { clients_by_id :=
                        ainsert p.clients_by_id t.client_id (applyStep k cl t),
                      transactions_by_id := ainsert p.transactions_by_id tid
                        { t with dispute_status := targetStatus k } } c =
                    p.heldOf c := by
                  simp [Processor.heldOf, alookup_ainsert_ne _ hne]
                rw [hh, hinv3 c]
                simp [hne]

end Challenge

namespace Challenge

theorem heldInv_run :
    ∀ (es : List Event) (p : Processor), HeldInv p →
      amountsNonneg es = true → noWithdrawalDisputes p es = true →
      HeldInv (processEvents p es) := by
  intro es
  induction es with
  | nil => intro p h _ _; exact h
  | cons e rest ih =>
    intro p h hA hD
    simp only [amountsNonneg, List.all_cons, Bool.and_eq_true] at hA
    simp only [noWithdrawalDisputes, Bool.and_eq_true] at hD
    have hamt : ∀ k tid cid a, e = Event.Transaction k tid cid a → 0 ≤ a := by
      intro k tid cid a he
      subst he
      have h1 := hA.1
      simp only [decide_eq_true_eq] at h1
      exact h1
    have hdisp : ∀ tid cid, e = Event.DisputeStep .Dispute tid cid →
        ∀ t, alookup p.transactions_by_id tid = some t →
          t.kind ≠ .Withdrawal := by
      intro tid cid he t hlt
      subst he
      have h1 : (match alookup p.transactions_by_id tid with
          | some t => decide (t.kind ≠ TransactionKind.Withdrawal)
          | none => true) = true := hD.1
      rw [hlt] at h1
      simp only [decide_eq_true_eq] at h1
      exact h1
    exact ih _ (heldInv_step p e h hamt hdisp) hA.2 hD.2

theorem heldInv_new : HeldInv Processor.new := by
  refine ⟨?_, ?_, ?_⟩
  · intro q hq
    simp [Processor.new] at hq
  · intro q hq
    simp [Processor.new] at hq
  · intro c
    simp [Processor.heldOf, Processor.new, pendingSum, sumBy, alookup]

/-- C6 counterexample: after deposit 100, withdraw 20, dispute of the
withdrawal, client 1's held amount is −20, so `held ≥ 0` does not hold for
every reachable state. -/
theorem c6_counterexample :
    ¬ (0 ≤ (run [.Transaction .Deposit 1 1 100,
        .Transaction .Withdrawal 2 1 20,
        .DisputeStep .Dispute 2 1]).heldOf 1) := by
  norm_num [run, processEvents, Processor.process_event, Processor.deposit,
    Processor.withdraw, Processor.dispute, Processor.new,
    Processor.check_transaction_does_not_exist, Processor.find_or_create_client,
    Processor.get_transaction_and_client, Processor.check_client_owns_transaction,
    Transaction.validate_dispute_status_transition, Transaction.new,
    Transaction.signedAmount, alookup, ainsert, Client.deposit, Client.withdraw,
    Client.available, Client.hold, Client.new, Processor.heldOf]

/-- C6 (amended): in every run whose deposit/withdrawal events all carry
nonnegative amounts and in which no dispute event targets a withdrawal
transaction, every client's held amount stays nonnegative (held equals the
sum of the client's pending disputed deposit amounts). -/
theorem c6_held_nonneg (es : List Event) (c : ClientID)
    (h1 : amountsNonneg es = true)
    (h2 : noWithdrawalDisputes Processor.new es = true) :
    0 ≤ (run es).heldOf c := by
  have hinv := heldInv_run es Processor.new heldInv_new h1 h2
  have hrun : run es = processEvents Processor.new es := rfl
  rw [hrun, hinv.2.2 c]
  unfold pendingSum
  apply sumBy_nonneg
  intro q hq
  by_cases hcond : q.2.client_id = c ∧ q.2.dispute_status = DisputeStatus.Pending
  · rw [if_pos hcond]
    exact hinv.1 q hq
  · rw [if_neg hcond]

/-- Witness for C6: a deposit followed by a dispute of that deposit satisfies
both side conditions and yields a nonnegative held amount. -/
theorem c6_witness :
    amountsNonneg [.Transaction .Deposit 1 1 100,
      .DisputeStep .Dispute 1 1] = true ∧
    noWithdrawalDisputes Processor.new
      [.Transaction .Deposit 1 1 100, .DisputeStep .Dispute 1 1] = true ∧
    0 ≤ (run [.Transaction .Deposit 1 1 100,
      .DisputeStep .Dispute 1 1]).heldOf 1 := by
  have h1 : amountsNonneg [.Transaction .Deposit 1 1 100,
      .DisputeStep .Dispute 1 1] = true := by
    norm_num [amountsNonneg, List.all_cons]
  have h2 : noWithdrawalDisputes Processor.new
      [.Transaction .Deposit 1 1 100, .DisputeStep .Dispute 1 1] = true := by
    norm_num [noWithdrawalDisputes, Processor.process_event, Processor.deposit,
      Processor.new, Processor.check_transaction_does_not_exist,
      Processor.find_or_create_client, alookup, ainsert, Client.deposit,
      Client.new, Transaction.new]
    decide
  exact ⟨h1, h2, c6_held_nonneg _ 1 h1 h2⟩

end Challenge
